import Mathlib

/-!
Verification development for the LOAM scan-registration / transform-maintenance
core (repository `loam`).  The definitions below are shallow embeddings of the
C++ source: machine floating point values are modelled as exact rationals,
`std::vector` buffers as Lean lists, and index arithmetic on `size_t` is made
explicit.  Each theorem refers back to the source location it checks.
-/

namespace Loam

/-! ## Common geometric primitives -/

/-- A 3-D point with the scalar intensity payload, mirroring `pcl::PointXYZI`
with coordinates modelled as exact rationals. -/
structure PointXYZI where
  x : ℚ
  y : ℚ
  z : ℚ
  intensity : ℚ
deriving DecidableEq, Repr

/-- Modelled from the spec: `calcSquaredDiff` of `math_utils.h` (not under
`src/`), the squared Euclidean distance between two points, the "squared
distance" of spec section 4.4. -/
def calcSquaredDiff (a b : PointXYZI) : ℚ :=
  (a.x - b.x) ^ 2 + (a.y - b.y) ^ 2 + (a.z - b.z) ^ 2

/-- Modelled from the spec: `calcSquaredPointDistance` of `math_utils.h` (not
under `src/`), the squared range of a point, the "squared range" of spec
section 4.4. -/
def calcSquaredPointDistance (p : PointXYZI) : ℚ :=
  p.x ^ 2 + p.y ^ 2 + p.z ^ 2

/-! ## C3: the linear ring mapping (`MultiScanMapper::getRingForAngle`) -/

/-- Truncation toward zero: the semantics of the C++ conversion `int(x)` of a
floating point expression (floor for nonnegative values, ceiling for negative
ones). -/
def cppTruncToInt (q : ℚ) : ℤ := if 0 ≤ q then ⌊q⌋ else ⌈q⌉

/-- The linear ring mapper state of `MultiScanMapper` (part_001 lines 41-60):
vertical angle bounds in degrees and the number of scan rings. -/
structure MultiScanMapper where
  lowerBound : ℚ
  upperBound : ℚ
  nScanRings : ℕ
deriving DecidableEq, Repr

/-- The cached factor `(nScanRings - 1) / (upperBound - lowerBound)` set by the
`MultiScanMapper` constructor (part_001 line 47). -/
def MultiScanMapper.factor (m : MultiScanMapper) : ℚ :=
  ((m.nScanRings : ℚ) - 1) / (m.upperBound - m.lowerBound)

/-- `MultiScanMapper::getRingForAngle` (part_001 lines 64-66):
`int(((angle * 180 / M_PI) - _lowerBound) * _factor + 0.5)`.  The source takes
the vertical angle in radians and first converts it to degrees; the embedding
receives the degree value `angleDeg` directly (the conversion is a strictly
monotone bijection, so nothing else about the computation changes). -/
def getRingForAngle (m : MultiScanMapper) (angleDeg : ℚ) : ℤ :=
  cppTruncToInt ((angleDeg - m.lowerBound) * m.factor + 1/2)

/-- The VLP-16 style linear profile of the claim: bounds [-15, 15] degrees and
16 rings (part_001, `MultiScanMapper::Velodyne_VLP_16`). -/
def VLP16 : MultiScanMapper := ⟨-15, 15, 16⟩

/-- The acceptance test of `MultiScanRegistration::process` (part_001 lines
196-199): a point is kept only when `0 ≤ scanID < nScanRings`; otherwise it is
skipped with `continue` (discarded, not an error). -/
def ringAccepted (m : MultiScanMapper) (angleDeg : ℚ) : Prop :=
  0 ≤ getRingForAngle m angleDeg ∧ getRingForAngle m angleDeg < (m.nScanRings : ℤ)

instance (m : MultiScanMapper) (d : ℚ) : Decidable (ringAccepted m d) := by
  unfold ringAccepted; infer_instance

/-- The ring formula exactly as the specification words it:
`round((angle_deg − lowerBound) × (nRings−1)/(upperBound−lowerBound))`, for
comparison with the source computation. -/
def specRoundRing (m : MultiScanMapper) (angleDeg : ℚ) : ℤ :=
  round ((angleDeg - m.lowerBound) * m.factor)

/-- For the VLP-16 profile the ring computation collapses to truncation toward
zero of `(angleDeg + 16) / 2`. -/
theorem getRingForAngle_VLP16 (d : ℚ) :
    getRingForAngle VLP16 d = cppTruncToInt ((d + 16) / 2) := by
  unfold getRingForAngle VLP16 MultiScanMapper.factor
  norm_num
  congr 1
  ring

/-- C3, counterexample: the vertical angle -16 degrees is strictly below the
lower bound -15, yet the source computes ring 0 for it and keeps the point,
while the claim says every angle strictly outside the bounds maps outside
[0, 16) and is discarded; moreover at -33/2 degrees the source formula
(truncation toward zero) gives ring 0 whereas the round formula of the claim
gives -1. -/
theorem C3_counterexample :
    getRingForAngle VLP16 (-16) = 0 ∧ ringAccepted VLP16 (-16) ∧
    (-16 : ℚ) < VLP16.lowerBound ∧
    getRingForAngle VLP16 (-33/2) = 0 ∧ specRoundRing VLP16 (-33/2) = -1 := by
  have h1 : getRingForAngle VLP16 (-16) = 0 := by
    rw [getRingForAngle_VLP16]
    norm_num [cppTruncToInt]
  have h2 : getRingForAngle VLP16 (-33/2) = 0 := by
    rw [getRingForAngle_VLP16, cppTruncToInt, if_neg (by norm_num)]
    rw [Int.ceil_eq_zero_iff, Set.mem_Ioc]
    norm_num
  have h3 : specRoundRing VLP16 (-33/2) = -1 := by
    unfold specRoundRing VLP16 MultiScanMapper.factor
    rw [round_eq]
    norm_num
  refine ⟨h1, ⟨by rw [h1], by rw [h1]; norm_num [VLP16]⟩, by norm_num [VLP16], h2, h3⟩

/-- C3, amended: the computed ring equals truncation toward zero (not round) of
`(angle_deg − lowerBound) × (nRings−1)/(upperBound−lowerBound) + 1/2`; with
bounds [-15, 15] and 16 rings, -15 degrees maps to ring 0 and 15 degrees to
ring 15, every angle inside the bounds is accepted, and angles at or below -18
degrees or at or above 16 degrees map outside [0, 16) and are discarded; but
angles in (-18, -15) still map to ring 0 and angles in (15, 16) to ring 15, so
not every angle strictly outside the bounds is discarded. -/
theorem C3_ring_mapping :
    getRingForAngle VLP16 (-15) = 0 ∧ getRingForAngle VLP16 15 = 15 ∧
    (∀ d : ℚ, -15 ≤ d → d ≤ 15 → ringAccepted VLP16 d) ∧
    (∀ d : ℚ, -18 < d → d < -15 → getRingForAngle VLP16 d = 0) ∧
    (∀ d : ℚ, 15 < d → d < 16 → getRingForAngle VLP16 d = 15) ∧
    (∀ d : ℚ, d ≤ -18 → getRingForAngle VLP16 d < 0) ∧
    (∀ d : ℚ, 16 ≤ d → (16 : ℤ) ≤ getRingForAngle VLP16 d) := by
  have e0 : getRingForAngle VLP16 (-15) = 0 := by
    rw [getRingForAngle_VLP16, cppTruncToInt, if_pos (by norm_num)]
    rw [Int.floor_eq_zero_iff, Set.mem_Ico]
    norm_num
  have e15 : getRingForAngle VLP16 15 = 15 := by
    rw [getRingForAngle_VLP16, cppTruncToInt, if_pos (by norm_num)]
    rw [Int.floor_eq_iff]
    constructor <;> norm_num
  refine ⟨e0, e15, ?_, ?_, ?_, ?_, ?_⟩
  · intro d h1 h2
    have hq : (0 : ℚ) ≤ (d + 16) / 2 := by linarith
    constructor
    · rw [getRingForAngle_VLP16, cppTruncToInt, if_pos hq]
      exact Int.le_floor.mpr (by push_cast; linarith)
    · rw [getRingForAngle_VLP16, cppTruncToInt, if_pos hq]
      have : ⌊(d + 16) / 2⌋ < (16 : ℤ) := Int.floor_lt.mpr (by push_cast; linarith)
      simpa [VLP16] using this
  · intro d h1 h2
    rw [getRingForAngle_VLP16, cppTruncToInt]
    split
    · next hq =>
      rw [Int.floor_eq_zero_iff, Set.mem_Ico]
      exact ⟨hq, by linarith⟩
    · next hq =>
      rw [Int.ceil_eq_zero_iff, Set.mem_Ioc]
      exact ⟨by linarith, by linarith [lt_of_not_le hq]⟩
  · intro d h1 h2
    have hq : (0 : ℚ) ≤ (d + 16) / 2 := by linarith
    rw [getRingForAngle_VLP16, cppTruncToInt, if_pos hq]
    rw [Int.floor_eq_iff]
    constructor <;> push_cast <;> linarith
  · intro d h1
    have hq : ¬ (0 : ℚ) ≤ (d + 16) / 2 := by
      intro h; linarith
    rw [getRingForAngle_VLP16, cppTruncToInt, if_neg hq]
    have : ⌈(d + 16) / 2⌉ ≤ -1 := Int.ceil_le.mpr (by push_cast; linarith)
    omega
  · intro d h1
    have hq : (0 : ℚ) ≤ (d + 16) / 2 := by linarith
    rw [getRingForAngle_VLP16, cppTruncToInt, if_pos hq]
    exact Int.le_floor.mpr (by push_cast; linarith)

/-- C3, witness: the amended theorem applied at the in-bounds angle 0, which is
accepted. -/
theorem C3_ring_mapping_witness : ringAccepted VLP16 0 :=
  C3_ring_mapping.2.2.1 0 (by norm_num) (by norm_num)

/-! ## C8: the start/end orientation reads of `MultiScanRegistration::process` -/

/-- A plain 3-D input point, mirroring `pcl::PointXYZ`. -/
structure PointXYZ where
  x : ℚ
  y : ℚ
  z : ℚ
deriving DecidableEq, Repr

/-- The modulus of `size_t` arithmetic (64 bits). -/
def sizeTMod : ℕ := 2 ^ 64

/-- The two unconditional input reads of `MultiScanRegistration::process`
(part_001 lines 157-165): `laserCloudIn[0]` for the start orientation and
`laserCloudIn[cloudSize - 1]` for the end orientation, where `cloudSize` is a
`size_t`, so for an empty cloud the second index wraps to `2^64 - 1`.  The
reads are embedded fallibly: a result of `none` means the C++ performs an
out-of-bounds `std::vector` access (undefined behavior / crash). -/
def processOriReads (cloudIn : List PointXYZ) : Option (PointXYZ × PointXYZ) :=
  match cloudIn.get? 0, cloudIn.get? ((cloudIn.length + (sizeTMod - 1)) % sizeTMod) with
  | some p0, some pLast => some (p0, pLast)
  | _, _ => none

/-- C8: the claim says `process` never indexes out of bounds, even for the
empty cloud.  In fact for the empty cloud both orientation reads (index 0 and
index `cloudSize - 1`, which wraps to `2^64 - 1`) are out of bounds, so the
claim is wrong about the code and right about the intent stated by the spec
(degenerate inputs "must not crash"): the code is the bug.  For every
non-empty cloud both reads are in bounds. -/
theorem C8_process_empty_cloud :
    processOriReads [] = none ∧
    ∀ c : List PointXYZ, c ≠ [] → c.length < sizeTMod → (processOriReads c).isSome := by
  constructor
  · rfl
  · intro c hne hlen
    have hpos : 0 < c.length := List.length_pos.mpr hne
    have hidx : (c.length + (sizeTMod - 1)) % sizeTMod = c.length - 1 := by
      have h1 : c.length + (sizeTMod - 1) = (c.length - 1) + sizeTMod := by omega
      rw [h1, Nat.add_mod_right]
      exact Nat.mod_eq_of_lt (by omega)
    cases h0 : c.get? 0 with
    | none =>
      rw [List.get?_eq_none] at h0
      omega
    | some p0 =>
      cases hL : c.get? (c.length - 1) with
      | none =>
        rw [List.get?_eq_none] at hL
        omega
      | some pL =>
        rw [List.get?_eq_getElem?] at h0 hL
        simp [processOriReads, hidx, h0, hL]

/-- C8, witness: a one-point cloud is read without going out of bounds. -/
theorem C8_process_empty_cloud_witness :
    (processOriReads [⟨1, 0, 0⟩]).isSome :=
  C8_process_empty_cloud.2 [⟨1, 0, 0⟩] (by simp) (by norm_num [sizeTMod])

/-! ## C9: the per-ring scan index ranges of `MultiScanRegistration::process` -/

/-- The range-building loop of `MultiScanRegistration::process` (part_001
lines 236-245), started at cumulative cloud size `c`: for each ring, the full
resolution cloud is extended by the ring and a pair is pushed whose first
component is the cumulative size before the ring and whose second component is
`cloudSize > 0 ? cloudSize - 1 : 0` with `cloudSize` the cumulative size after
adding the ring. -/
def buildScanIndicesFrom (c : ℕ) : List (List PointXYZI) → List (ℕ × ℕ)
  | [] => []
  | s :: rest =>
    (c, if 0 < c + s.length then c + s.length - 1 else 0) ::
      buildScanIndicesFrom (c + s.length) rest

/-- The `_scanIndices` vector produced for one sweep, the loop above started
at cumulative size 0 (the buffers are cleared at each new sweep). -/
def buildScanIndices (scans : List (List PointXYZI)) : List (ℕ × ℕ) :=
  buildScanIndicesFrom 0 scans

/-- The number of full-resolution cloud points contributed by the first `i`
rings; ring `i` occupies indices `[prefixLen scans i, prefixLen scans i +
length of ring i)` of the concatenated cloud. -/
def prefixLen (scans : List (List PointXYZI)) (i : ℕ) : ℕ :=
  ((scans.take i).map List.length).sum

/-- The set of full-resolution cloud indices covered by a
(startIndex, endIndex) pair, read inclusively as the claim reads it. -/
def coveredIndices (r : ℕ × ℕ) : Finset ℕ := Finset.Icc r.1 r.2

theorem prefixLen_nil (i : ℕ) : prefixLen [] i = 0 := by
  simp [prefixLen]

theorem prefixLen_zero (scans : List (List PointXYZI)) : prefixLen scans 0 = 0 := by
  simp [prefixLen]

theorem prefixLen_cons_succ (s : List PointXYZI) (rest : List (List PointXYZI)) (i : ℕ) :
    prefixLen (s :: rest) (i + 1) = s.length + prefixLen rest i := by
  simp [prefixLen]

theorem prefixLen_mono (scans : List (List PointXYZI)) :
    ∀ i j, i ≤ j → prefixLen scans i ≤ prefixLen scans j := by
  induction scans with
  | nil => intro i j _; simp [prefixLen_nil]
  | cons s rest ih =>
    intro i j hij
    cases i with
    | zero => rw [prefixLen_zero]; exact Nat.zero_le _
    | succ i =>
      cases j with
      | zero => omega
      | succ j =>
        rw [prefixLen_cons_succ, prefixLen_cons_succ]
        exact Nat.add_le_add_left (ih i j (by omega)) _

theorem prefixLen_succ_of_get (scans : List (List PointXYZI)) :
    ∀ i s, scans[i]? = some s → prefixLen scans (i + 1) = prefixLen scans i + s.length := by
  induction scans with
  | nil => intro i s h; simp at h
  | cons a rest ih =>
    intro i s h
    cases i with
    | zero =>
      simp only [List.getElem?_cons_zero, Option.some.injEq] at h
      subst h
      rw [prefixLen_cons_succ, prefixLen_zero, prefixLen_zero]
      omega
    | succ i =>
      rw [prefixLen_cons_succ, prefixLen_cons_succ,
        ih i s (by simpa using h)]
      omega

theorem buildScanIndicesFrom_length (c : ℕ) (scans : List (List PointXYZI)) :
    (buildScanIndicesFrom c scans).length = scans.length := by
  induction scans generalizing c with
  | nil => rfl
  | cons s rest ih => simp [buildScanIndicesFrom, ih]

theorem buildScanIndicesFrom_get (scans : List (List PointXYZI)) :
    ∀ c i, i < scans.length →
      (buildScanIndicesFrom c scans)[i]? =
        some (c + prefixLen scans i,
          if 0 < c + prefixLen scans (i + 1) then c + prefixLen scans (i + 1) - 1 else 0) := by
  induction scans with
  | nil => intro c i h; simp at h
  | cons s rest ih =>
    intro c i h
    cases i with
    | zero =>
      rw [buildScanIndicesFrom]
      rw [List.getElem?_cons_zero, prefixLen_zero, prefixLen_cons_succ, prefixLen_zero]
      norm_num
    | succ i =>
      rw [buildScanIndicesFrom]
      rw [List.getElem?_cons_succ]
      rw [ih (c + s.length) i (by simpa using h)]
      rw [prefixLen_cons_succ, prefixLen_cons_succ]
      simp [Nat.add_assoc]

theorem flatten_get_prefixLen (scans : List (List PointXYZI)) :
    ∀ i s, scans[i]? = some s → ∀ k, k < s.length →
      scans.flatten[prefixLen scans i + k]? = s[k]? := by
  induction scans with
  | nil => intro i s h; simp at h
  | cons a rest ih =>
    intro i s h k hk
    cases i with
    | zero =>
      simp only [List.getElem?_cons_zero, Option.some.injEq] at h
      subst h
      rw [prefixLen_zero, List.flatten_cons, Nat.zero_add,
        List.getElem?_append_left hk]
    | succ i =>
      rw [List.flatten_cons, prefixLen_cons_succ,
        show a.length + prefixLen rest i + k = a.length + (prefixLen rest i + k) by omega,
        List.getElem?_append_right (by omega), Nat.add_sub_cancel_left]
      exact ih i s (by simpa using h) k hk

/-- C9, counterexample: with ring 0 empty and ring 1 holding one point, both
pushed ranges are (0, 0); the inclusive index set covered by the empty ring 0
is then {0}, which is exactly ring 1, so the covered sets of two distinct
rings are not disjoint as the claim asserts. -/
theorem C9_counterexample :
    buildScanIndices [[], [⟨1, 0, 0, 0⟩]] = [(0, 0), (0, 0)] ∧
    ¬ Disjoint (coveredIndices (0, 0)) (coveredIndices (0, 0)) := by
  constructor
  · rfl
  · rw [Finset.not_disjoint_iff]
    exact ⟨0, by simp [coveredIndices], by simp [coveredIndices]⟩

/-- C9, amended: the ranges are pushed in ring order, one per ring; every
non-empty ring with cloud offset `p` and `n` points gets exactly the pair
`(p, p + n - 1)`, whose inclusive index interval is contiguous and contains
exactly that ring's points of the concatenated full-resolution cloud; the
covered sets of two distinct non-empty rings are disjoint and ordered by ring
id.  (Empty rings get a degenerate pair - `(c, c-1)`, or `(0, 0)` while the
cumulative size is still zero - whose inclusive reading may overlap a
neighbor, so disjointness holds for the non-empty rings only.) -/
theorem C9_scan_ranges (scans : List (List PointXYZI)) :
    (buildScanIndices scans).length = scans.length ∧
    (∀ (i : ℕ) (s : List PointXYZI), scans[i]? = some s → s ≠ [] →
      (buildScanIndices scans)[i]? =
        some (prefixLen scans i, prefixLen scans i + s.length - 1)) ∧
    (∀ (i j : ℕ) (si sj : List PointXYZI) (ri rj : ℕ × ℕ), i < j →
      scans[i]? = some si → si ≠ [] →
      scans[j]? = some sj → sj ≠ [] →
      (buildScanIndices scans)[i]? = some ri →
      (buildScanIndices scans)[j]? = some rj →
      ri.2 < rj.1 ∧ Disjoint (coveredIndices ri) (coveredIndices rj)) ∧
    (∀ (i : ℕ) (s : List PointXYZI), scans[i]? = some s → ∀ k, k < s.length →
      scans.flatten[prefixLen scans i + k]? = s[k]?) := by
  have hget : ∀ (i : ℕ) (s : List PointXYZI), scans[i]? = some s → s ≠ [] →
      (buildScanIndices scans)[i]? =
        some (prefixLen scans i, prefixLen scans i + s.length - 1) := by
    intro i s hs hne
    have hi : i < scans.length := (List.getElem?_eq_some.mp hs).1
    have hlen : 0 < s.length := List.length_pos.mpr hne
    rw [buildScanIndices, buildScanIndicesFrom_get scans 0 i hi]
    rw [prefixLen_succ_of_get scans i s hs]
    rw [if_pos (by omega)]
    norm_num
  refine ⟨buildScanIndicesFrom_length 0 scans, hget, ?_, flatten_get_prefixLen scans⟩
  intro i j si sj ri rj hij hsi hsine hsj hsjne hri hrj
  rw [hget i si hsi hsine] at hri
  rw [hget j sj hsj hsjne] at hrj
  have hri2 : ri = (prefixLen scans i, prefixLen scans i + si.length - 1) := by
    injection hri with h; exact h.symm
  have hrj2 : rj = (prefixLen scans j, prefixLen scans j + sj.length - 1) := by
    injection hrj with h; exact h.symm
  have hmono : prefixLen scans (i + 1) ≤ prefixLen scans j :=
    prefixLen_mono scans (i + 1) j (by omega)
  have hsucc : prefixLen scans (i + 1) = prefixLen scans i + si.length :=
    prefixLen_succ_of_get scans i si hsi
  have hlen : 0 < si.length := List.length_pos.mpr hsine
  have hord : ri.2 < rj.1 := by
    rw [hri2, hrj2]
    simp only []
    omega
  refine ⟨hord, Finset.disjoint_left.mpr ?_⟩
  intro x hx hx2
  rw [coveredIndices, Finset.mem_Icc] at hx hx2
  omega

/-- C9, witness: the amended theorem applied to a concrete two-ring cloud with
one and two points: ring 1 starts at full-resolution index 1 and ends at 2. -/
theorem C9_scan_ranges_witness :
    (buildScanIndices [[⟨1, 0, 0, 0⟩], [⟨2, 0, 0, 0⟩, ⟨3, 0, 0, 0⟩]])[1]? =
      some (prefixLen [[⟨1, 0, 0, 0⟩], [⟨2, 0, 0, 0⟩, ⟨3, 0, 0, 0⟩]] 1,
        prefixLen [[⟨1, 0, 0, 0⟩], [⟨2, 0, 0, 0⟩, ⟨3, 0, 0, 0⟩]] 1 + 2 - 1) :=
  (C9_scan_ranges [[⟨1, 0, 0, 0⟩], [⟨2, 0, 0, 0⟩, ⟨3, 0, 0, 0⟩]]).2.1 1
    [⟨2, 0, 0, 0⟩, ⟨3, 0, 0, 0⟩] rfl (by simp)

/-! ## C1: the pre-pass unreliability marking (`ScanRegistration::setScanBuffersFor`) -/

/-- Modelled from the spec: the dot product of two position vectors, used to
express the occlusion test of `setScanBuffersFor` without square roots. -/
def dotPoint (a b : PointXYZI) : ℚ := a.x * b.x + a.y * b.y + a.z * b.z

/-- The occlusion closeness test of `setScanBuffersFor` (part_001 lines
697-710).  In the source, with `d1 = calcPointDistance(point)` and
`d2 = calcPointDistance(nextPoint)`, the deeper-point branch compares
`sqrt(calcSquaredDiff(nextPoint, point, d2/d1)) / d2` with 0.1 and the other
branch compares `sqrt(calcSquaredDiff(point, nextPoint, d1/d2)) / d1` with
0.1.  Expanding the weighted squared difference, both quantities equal
`sqrt(2 * (1 - cos angle))` where `cos angle = dot(p, q) / (d1 * d2)`, so in
both branches the test `weighted_distance < 0.1` is equivalent to
`cos angle > 1 - 1/200 = 199/200`, i.e. (squaring once more, with every
quantity nonnegative) to `dot p q > 0` together with
`(dot p q)^2 > (199/200)^2 * squaredRange p * squaredRange q`, which is the
exact rational form used here. -/
def occlusionClose (p q : PointXYZI) : Prop :=
  0 < dotPoint p q ∧
    (199/200 : ℚ) ^ 2 * calcSquaredPointDistance p * calcSquaredPointDistance q <
      (dotPoint p q) ^ 2

instance (p q : PointXYZI) : Decidable (occlusionClose p q) := by
  unfold occlusionClose; infer_instance

/-- The parallel-beam test of `setScanBuffersFor` (part_001 line 717): both
neighbor gaps of point `i` exceed `0.0002` times its squared range. -/
def bothGapsLarge (cloud : ℕ → PointXYZI) (i : ℕ) : Prop :=
  1/5000 * calcSquaredPointDistance (cloud i) <
      calcSquaredDiff (cloud (i + 1)) (cloud i) ∧
    1/5000 * calcSquaredPointDistance (cloud i) <
      calcSquaredDiff (cloud i) (cloud (i - 1))

instance (cloud : ℕ → PointXYZI) (i : ℕ) : Decidable (bothGapsLarge cloud i) := by
  unfold bothGapsLarge; infer_instance

/-- `std::fill_n(&buf[start], cnt, 1)` over a list buffer: set `cnt`
consecutive entries starting at `start` to 1. -/
def fillN (l : List ℕ) (start : ℕ) : ℕ → List ℕ
  | 0 => l
  | c + 1 => fillN (l.set start 1) (start + 1) c

/-- The parallel-beam marking statement of `setScanBuffersFor` (part_001 lines
714-719): when both neighbor gaps exceed `0.0002` times the squared range of
point `i`, entry `i - startIdx` of the neighbor-picked buffer is set to 1. -/
def parallelRule (cloud : ℕ → PointXYZI) (startIdx : ℕ) (picked : List ℕ) (i : ℕ) :
    List ℕ :=
  if bothGapsLarge cloud i then picked.set (i - startIdx) 1 else picked

/-- One iteration of the marking loop of `ScanRegistration::setScanBuffersFor`
(part_001 lines 686-720) at cloud index `i`: the occlusion test runs first
when the forward gap exceeds 0.1; in the deeper-point branch a positive test
fills `curvatureRegion + 1` entries ending at `i - startIdx` and skips the
rest of the iteration with `continue`, in the other branch it fills
`curvatureRegion + 1` entries starting at `i - startIdx + 1` and falls
through; afterwards the parallel-beam rule of lines 714-719 runs.  `R` is
`curvatureRegion`; the comparison `depth1 > depth2` is expressed on the
squared ranges (square root is strictly monotone). -/
def setScanBuffersStep (cloud : ℕ → PointXYZI) (R startIdx : ℕ)
    (picked : List ℕ) (i : ℕ) : List ℕ :=
  if 1/10 < calcSquaredDiff (cloud (i + 1)) (cloud i) then
    if calcSquaredPointDistance (cloud (i + 1)) < calcSquaredPointDistance (cloud i) then
      if occlusionClose (cloud i) (cloud (i + 1)) then
        fillN picked (i - startIdx - R) (R + 1)
      else
        parallelRule cloud startIdx picked i
    else
      if occlusionClose (cloud i) (cloud (i + 1)) then
        parallelRule cloud startIdx (fillN picked (i - startIdx + 1) (R + 1)) i
      else
        parallelRule cloud startIdx picked i
  else
    parallelRule cloud startIdx picked i

/-- `ScanRegistration::setScanBuffersFor` (part_001 lines 678-721): the buffer
starts as `endIdx - startIdx + 1` zeros and the marking loop runs over cloud
indices `i` with `startIdx + curvatureRegion ≤ i < endIdx - curvatureRegion`. -/
def setScanBuffersFor (cloud : ℕ → PointXYZI) (R startIdx endIdx : ℕ) : List ℕ :=
  (List.range' (startIdx + R) ((endIdx - R) - (startIdx + R))).foldl
    (setScanBuffersStep cloud R startIdx)
    (List.replicate (endIdx - startIdx + 1) 0)

/-- The value of the neighbor-picked buffer at relative position `p`
(out-of-range reads give the initial value 0). -/
def pickedVal (l : List ℕ) (p : ℕ) : ℕ := (l[p]?).getD 0

theorem fillN_length : ∀ (c : ℕ) (l : List ℕ) (s : ℕ), (fillN l s c).length = l.length := by
  intro c
  induction c with
  | zero => intro l s; rfl
  | succ c ih => intro l s; rw [fillN, ih, List.length_set]

theorem fillN_getElem? : ∀ (c : ℕ) (l : List ℕ) (s p : ℕ),
    (fillN l s c)[p]? = if s ≤ p ∧ p < s + c ∧ p < l.length then some 1 else l[p]? := by
  intro c
  induction c with
  | zero =>
    intro l s p
    rw [fillN, if_neg (by omega)]
  | succ c ih =>
    intro l s p
    rw [fillN, ih, List.length_set]
    rcases eq_or_ne s p with rfl | hne
    · rw [if_neg (by omega)]
      by_cases hlen : s < l.length
      · rw [List.getElem?_set_self hlen, if_pos (by omega)]
      · rw [List.getElem?_set, if_pos rfl, if_neg hlen, if_neg (by omega), eq_comm]
        exact List.getElem?_eq_none (by omega)
    · rw [List.getElem?_set_ne hne]
      by_cases hC : s + 1 ≤ p ∧ p < s + 1 + c ∧ p < l.length
      · rw [if_pos hC, if_pos (by omega)]
      · rw [if_neg hC, if_neg (by omega)]

theorem parallelRule_length (cloud : ℕ → PointXYZI) (startIdx : ℕ)
    (picked : List ℕ) (i : ℕ) :
    (parallelRule cloud startIdx picked i).length = picked.length := by
  unfold parallelRule
  split <;> simp

theorem setScanBuffersStep_length (cloud : ℕ → PointXYZI) (R startIdx : ℕ)
    (picked : List ℕ) (i : ℕ) :
    (setScanBuffersStep cloud R startIdx picked i).length = picked.length := by
  unfold setScanBuffersStep
  split_ifs <;>
    simp [parallelRule_length, fillN_length]

theorem pickedVal_set_one (l : List ℕ) (q p : ℕ) (h : pickedVal l p = 1) :
    pickedVal (l.set q 1) p = 1 := by
  rcases eq_or_ne q p with rfl | hne
  · by_cases hlen : q < l.length
    · rw [pickedVal, List.getElem?_set_self hlen, Option.getD_some]
    · exfalso
      rw [pickedVal, List.getElem?_eq_none (by omega)] at h
      simp at h
  · rw [pickedVal, List.getElem?_set_ne hne]
    exact h

theorem pickedVal_fillN_one (c : ℕ) (l : List ℕ) (s p : ℕ) (h : pickedVal l p = 1) :
    pickedVal (fillN l s c) p = 1 := by
  rw [pickedVal, fillN_getElem?]
  split
  · rfl
  · exact h

theorem parallelRule_pickedVal_one (cloud : ℕ → PointXYZI) (startIdx : ℕ)
    (picked : List ℕ) (i p : ℕ) (h : pickedVal picked p = 1) :
    pickedVal (parallelRule cloud startIdx picked i) p = 1 := by
  unfold parallelRule
  split
  · exact pickedVal_set_one picked (i - startIdx) p h
  · exact h

theorem setScanBuffersStep_pickedVal_one (cloud : ℕ → PointXYZI) (R startIdx : ℕ)
    (picked : List ℕ) (i p : ℕ) (h : pickedVal picked p = 1) :
    pickedVal (setScanBuffersStep cloud R startIdx picked i) p = 1 := by
  unfold setScanBuffersStep
  split_ifs <;>
    first
      | exact pickedVal_fillN_one _ _ _ _ h
      | exact parallelRule_pickedVal_one _ _ _ _ _ h
      | exact parallelRule_pickedVal_one _ _ _ _ _ (pickedVal_fillN_one _ _ _ _ h)

theorem setScanBuffersStep_marks_self (cloud : ℕ → PointXYZI) (R startIdx : ℕ)
    (picked : List ℕ) (i : ℕ) (hR : startIdx + R ≤ i)
    (hlen : i - startIdx < picked.length) (hgap : bothGapsLarge cloud i) :
    pickedVal (setScanBuffersStep cloud R startIdx picked i) (i - startIdx) = 1 := by
  have hrule : ∀ l : List ℕ, l.length = picked.length →
      pickedVal (parallelRule cloud startIdx l i) (i - startIdx) = 1 := by
    intro l hl
    rw [parallelRule, if_pos hgap, pickedVal,
      List.getElem?_set_self (by omega), Option.getD_some]
  unfold setScanBuffersStep
  split_ifs
  · rw [pickedVal, fillN_getElem?, if_pos (by constructor; omega; constructor; omega; omega)]
    rfl
  · exact hrule picked rfl
  · exact hrule _ (fillN_length _ _ _)
  · exact hrule picked rfl
  · exact hrule picked rfl

theorem parallelRule_pickedVal_other (cloud : ℕ → PointXYZI) (startIdx : ℕ)
    (picked : List ℕ) (i p : ℕ)
    (h : ¬ (bothGapsLarge cloud i ∧ i - startIdx = p)) :
    pickedVal (parallelRule cloud startIdx picked i) p = pickedVal picked p := by
  unfold parallelRule
  split
  · next hgap =>
    rw [pickedVal, List.getElem?_set_ne (fun hc => h ⟨hgap, hc⟩)]
    rfl
  · rfl

theorem foldl_step_length (cloud : ℕ → PointXYZI) (R startIdx : ℕ) :
    ∀ (l : List ℕ) (picked : List ℕ),
      (l.foldl (setScanBuffersStep cloud R startIdx) picked).length = picked.length := by
  intro l
  induction l with
  | nil => intro picked; rfl
  | cons j l ih =>
    intro picked
    rw [List.foldl_cons, ih, setScanBuffersStep_length]

theorem foldl_step_pickedVal_one (cloud : ℕ → PointXYZI) (R startIdx : ℕ) :
    ∀ (l : List ℕ) (picked : List ℕ) (p : ℕ), pickedVal picked p = 1 →
      pickedVal (l.foldl (setScanBuffersStep cloud R startIdx) picked) p = 1 := by
  intro l
  induction l with
  | nil => intro picked p h; exact h
  | cons j l ih =>
    intro picked p h
    rw [List.foldl_cons]
    exact ih _ p (setScanBuffersStep_pickedVal_one _ _ _ _ _ _ h)

theorem foldl_step_inert_untouched (cloud : ℕ → PointXYZI) (R startIdx : ℕ) :
    ∀ (l : List ℕ) (picked : List ℕ) (p : ℕ),
      (∀ j ∈ l, calcSquaredDiff (cloud (j + 1)) (cloud j) ≤ 1/10 ∧
        ¬ (bothGapsLarge cloud j ∧ j - startIdx = p)) →
      pickedVal (l.foldl (setScanBuffersStep cloud R startIdx) picked) p =
        pickedVal picked p := by
  intro l
  induction l with
  | nil => intro picked p _; rfl
  | cons j l ih =>
    intro picked p h
    have hj := h j (List.mem_cons_self j l)
    rw [List.foldl_cons,
      ih _ p (fun k hk => h k (List.mem_cons_of_mem j hk))]
    rw [setScanBuffersStep, if_neg (not_lt.mpr hj.1)]
    exact parallelRule_pickedVal_other cloud startIdx picked j p hj.2

/-- C1, amended: the inequality direction of the claim is inverted in the
code.  For an interior point `i` of a scan (`startIdx + curvatureRegion ≤ i <
endIdx - curvatureRegion`), the parallel-beam rule of `setScanBuffersFor`
pre-marks `i` as picked when both of its neighbor gaps EXCEED `0.0002` times
its squared range (first conjunct, with no assumption on the rest of the
scan); and when no forward gap of the scan exceeds the occlusion threshold
0.1 (so the occlusion rule never fires), the point ends up marked exactly
when both gaps exceed the threshold: in particular a point with at least one
small neighbor gap stays unmarked (second conjunct). -/
theorem C1_parallel_marking (cloud : ℕ → PointXYZI) (R startIdx endIdx i : ℕ)
    (h1 : startIdx + R ≤ i) (h2 : i < endIdx - R) :
    (bothGapsLarge cloud i →
      pickedVal (setScanBuffersFor cloud R startIdx endIdx) (i - startIdx) = 1) ∧
    ((∀ j, startIdx + R ≤ j → j < endIdx - R →
        calcSquaredDiff (cloud (j + 1)) (cloud j) ≤ 1/10) →
      ¬ bothGapsLarge cloud i →
      pickedVal (setScanBuffersFor cloud R startIdx endIdx) (i - startIdx) = 0) := by
  have hmem : i ∈ List.range' (startIdx + R) ((endIdx - R) - (startIdx + R)) := by
    rw [List.mem_range'_1]
    omega
  constructor
  · intro hgap
    obtain ⟨l1, l2, hsplit⟩ := List.append_of_mem hmem
    rw [setScanBuffersFor, hsplit, List.foldl_append, List.foldl_cons]
    refine foldl_step_pickedVal_one cloud R startIdx l2 _ _ ?_
    refine setScanBuffersStep_marks_self cloud R startIdx _ i h1 ?_ hgap
    rw [foldl_step_length, List.length_replicate]
    omega
  · intro hinert hgap
    rw [setScanBuffersFor, foldl_step_inert_untouched]
    · rw [pickedVal, List.getElem?_replicate, if_pos (by omega), Option.getD_some]
    · intro j hj
      rw [List.mem_range'_1] at hj
      refine ⟨hinert j (by omega) (by omega), ?_⟩
      rintro ⟨hgapj, hpos⟩
      have : j = i := by omega
      exact hgap (this ▸ hgapj)

/-- A concrete scan for the C1 counterexample: points on the x axis spaced a
tenth apart, starting at range 1. -/
def cloudC1 : ℕ → PointXYZI := fun i => ⟨1 + (i : ℚ)/10, 0, 0, 0⟩

/-- C1, counterexample: in the concrete scan `cloudC1` with `curvatureRegion
= 5`, `startIdx = 0`, `endIdx = 11`, the interior point 5 has both neighbor
gaps `(1/10)^2 = 1/100`, which exceeds `0.0002` times its squared range
`9/4`, and its forward gap does not trigger the occlusion rule; the code
marks it as picked, while the claim states that a point whose both neighbor
gaps exceed the threshold is NOT marked by this rule. -/
theorem C1_counterexample :
    bothGapsLarge cloudC1 5 ∧
    calcSquaredDiff (cloudC1 6) (cloudC1 5) ≤ 1/10 ∧
    pickedVal (setScanBuffersFor cloudC1 5 0 11) 5 = 1 := by
  refine ⟨?_, ?_, ?_⟩
  · constructor <;>
      norm_num [calcSquaredPointDistance, calcSquaredDiff, cloudC1]
  · norm_num [calcSquaredDiff, cloudC1]
  · show pickedVal (setScanBuffersFor cloudC1 5 0 11) 5 = 1
    rw [setScanBuffersFor]
    norm_num
    rw [setScanBuffersStep,
      if_neg (by norm_num [calcSquaredDiff, cloudC1]),
      parallelRule,
      if_pos (by constructor <;> norm_num [calcSquaredPointDistance, calcSquaredDiff, cloudC1])]
    rw [pickedVal, List.getElem?_set_self (by simp), Option.getD_some]

/-- C1, witness: the amended theorem applied to the concrete scan `cloudC1`,
marking interior point 5 whose both gaps exceed the threshold. -/
theorem C1_parallel_marking_witness :
    pickedVal (setScanBuffersFor cloudC1 5 0 11) 5 = 1 :=
  (C1_parallel_marking cloudC1 5 0 11 5 (by norm_num) (by norm_num)).1
    (by constructor <;> norm_num [calcSquaredPointDistance, calcSquaredDiff, cloudC1])

/-! ## C2 and C10: corner feature extraction (`ScanRegistration::extractFeatures`) -/

/-- The point labels of ScanRegistration.h lines 58-64. -/
inductive PointLabel where
  | CORNER_SHARP
  | CORNER_LESS_SHARP
  | SURFACE_LESS_FLAT
  | SURFACE_FLAT
deriving DecidableEq, Repr

/-- The curvature of cloud index `x` as read by the selection loops:
`_regionCurvature[x - sp]` (part_001 line 585). -/
def curvAt (curv : List ℚ) (sp x : ℕ) : ℚ := (curv[x - sp]?).getD 0

/-- The label of cloud index `x` as stored in the region label buffer:
`_regionLabel[x - sp]`; the buffer is initialized to SURFACE_LESS_FLAT
(part_001 line 646). -/
def labelAt (labels : List PointLabel) (sp x : ℕ) : PointLabel :=
  (labels[x - sp]?).getD PointLabel.SURFACE_LESS_FLAT

/-- The forward half of `ScanRegistration::markAsPicked` (part_001 lines
730-736): starting at neighbor offset `i` with `c` iterations left, stop at
the first consecutive squared gap above 0.05, otherwise mark
`scanIdx + i` and continue. -/
def markFrom (cloud : ℕ → PointXYZI) (cloudIdx scanIdx : ℕ) :
    List ℕ → ℕ → ℕ → List ℕ
  | picked, _, 0 => picked
  | picked, i, c + 1 =>
    if 1/20 < calcSquaredDiff (cloud (cloudIdx + i)) (cloud (cloudIdx + i - 1)) then
      picked
    else
      markFrom cloud cloudIdx scanIdx (picked.set (scanIdx + i) 1) (i + 1) c

/-- The backward half of `ScanRegistration::markAsPicked` (part_001 lines
738-744). -/
def markBack (cloud : ℕ → PointXYZI) (cloudIdx scanIdx : ℕ) :
    List ℕ → ℕ → ℕ → List ℕ
  | picked, _, 0 => picked
  | picked, i, c + 1 =>
    if 1/20 < calcSquaredDiff (cloud (cloudIdx - i)) (cloud (cloudIdx - i + 1)) then
      picked
    else
      markBack cloud cloudIdx scanIdx (picked.set (scanIdx - i) 1) (i + 1) c

/-- `ScanRegistration::markAsPicked` (part_001 lines 725-745): mark the point
itself, then up to `curvatureRegion` neighbors on each side, stopping at
depth discontinuities. -/
def markAsPicked (cloud : ℕ → PointXYZI) (R cloudIdx scanIdx : ℕ)
    (picked : List ℕ) : List ℕ :=
  markBack cloud cloudIdx scanIdx
    (markFrom cloud cloudIdx scanIdx (picked.set scanIdx 1) 1 R) 1 R

theorem pickedVal_set_or (l : List ℕ) (q p : ℕ) :
    pickedVal (l.set q 1) p = pickedVal l p ∨ pickedVal (l.set q 1) p = 1 := by
  rcases eq_or_ne q p with rfl | hne
  · by_cases hlen : q < l.length
    · right
      rw [pickedVal, List.getElem?_set_self hlen, Option.getD_some]
    · left
      rw [pickedVal, List.getElem?_set, if_pos rfl, if_neg hlen, pickedVal,
        List.getElem?_eq_none (by omega)]
  · left
    rw [pickedVal, List.getElem?_set_ne hne, pickedVal]

theorem markFrom_length (cloud : ℕ → PointXYZI) (cloudIdx scanIdx : ℕ) :
    ∀ (c : ℕ) (picked : List ℕ) (i : ℕ),
      (markFrom cloud cloudIdx scanIdx picked i c).length = picked.length := by
  intro c
  induction c with
  | zero => intro picked i; rfl
  | succ c ih =>
    intro picked i
    rw [markFrom]
    split
    · rfl
    · rw [ih, List.length_set]

theorem markBack_length (cloud : ℕ → PointXYZI) (cloudIdx scanIdx : ℕ) :
    ∀ (c : ℕ) (picked : List ℕ) (i : ℕ),
      (markBack cloud cloudIdx scanIdx picked i c).length = picked.length := by
  intro c
  induction c with
  | zero => intro picked i; rfl
  | succ c ih =>
    intro picked i
    rw [markBack]
    split
    · rfl
    · rw [ih, List.length_set]

theorem markFrom_pickedVal_or (cloud : ℕ → PointXYZI) (cloudIdx scanIdx : ℕ) :
    ∀ (c : ℕ) (picked : List ℕ) (i p : ℕ),
      pickedVal (markFrom cloud cloudIdx scanIdx picked i c) p = pickedVal picked p ∨
        pickedVal (markFrom cloud cloudIdx scanIdx picked i c) p = 1 := by
  intro c
  induction c with
  | zero => intro picked i p; left; rfl
  | succ c ih =>
    intro picked i p
    rw [markFrom]
    split
    · left; rfl
    · rcases ih (picked.set (scanIdx + i) 1) (i + 1) p with h | h
      · rcases pickedVal_set_or picked (scanIdx + i) p with h2 | h2
        · left; rw [h, h2]
        · right; rw [h, h2]
      · right; exact h


theorem markBack_pickedVal_or (cloud : ℕ → PointXYZI) (cloudIdx scanIdx : ℕ) :
    ∀ (c : ℕ) (picked : List ℕ) (i p : ℕ),
      pickedVal (markBack cloud cloudIdx scanIdx picked i c) p = pickedVal picked p ∨
        pickedVal (markBack cloud cloudIdx scanIdx picked i c) p = 1 := by
  intro c
  induction c with
  | zero => intro picked i p; left; rfl
  | succ c ih =>
    intro picked i p
    rw [markBack]
    split
    · left; rfl
    · rcases ih (picked.set (scanIdx - i) 1) (i + 1) p with h | h
      · rcases pickedVal_set_or picked (scanIdx - i) p with h2 | h2
        · left; rw [h, h2]
        · right; rw [h, h2]
      · right; exact h

theorem markAsPicked_length (cloud : ℕ → PointXYZI) (R cloudIdx scanIdx : ℕ)
    (picked : List ℕ) :
    (markAsPicked cloud R cloudIdx scanIdx picked).length = picked.length := by
  rw [markAsPicked, markBack_length, markFrom_length, List.length_set]

theorem markAsPicked_pickedVal_or (cloud : ℕ → PointXYZI) (R cloudIdx scanIdx : ℕ)
    (picked : List ℕ) (p : ℕ) :
    pickedVal (markAsPicked cloud R cloudIdx scanIdx picked) p = pickedVal picked p ∨
      pickedVal (markAsPicked cloud R cloudIdx scanIdx picked) p = 1 := by
  rw [markAsPicked]
  rcases markBack_pickedVal_or cloud cloudIdx scanIdx R
      (markFrom cloud cloudIdx scanIdx (picked.set scanIdx 1) 1 R) 1 p with h | h
  · rcases markFrom_pickedVal_or cloud cloudIdx scanIdx R (picked.set scanIdx 1) 1 p with
      h2 | h2
    · rcases pickedVal_set_or picked scanIdx p with h3 | h3
      · left; rw [h, h2, h3]
      · right; rw [h, h2, h3]
    · right; rw [h, h2]
  · right; exact h

theorem markAsPicked_sets_self (cloud : ℕ → PointXYZI) (R cloudIdx scanIdx : ℕ)
    (picked : List ℕ) (h : scanIdx < picked.length) :
    pickedVal (markAsPicked cloud R cloudIdx scanIdx picked) scanIdx = 1 := by
  rw [markAsPicked]
  have h1 : pickedVal (picked.set scanIdx 1) scanIdx = 1 := by
    rw [pickedVal, List.getElem?_set_self h, Option.getD_some]
  have h2 : pickedVal (markFrom cloud cloudIdx scanIdx (picked.set scanIdx 1) 1 R)
      scanIdx = 1 := by
    rcases markFrom_pickedVal_or cloud cloudIdx scanIdx R (picked.set scanIdx 1) 1
        scanIdx with hor | hor
    · rw [hor, h1]
    · exact hor
  rcases markBack_pickedVal_or cloud cloudIdx scanIdx R
      (markFrom cloud cloudIdx scanIdx (picked.set scanIdx 1) 1 R) 1 scanIdx with hor | hor
  · rw [hor, h2]
  · exact hor

/-- The state threaded through the corner-extraction loop of
`ScanRegistration::extractFeatures` (part_001 lines 577-598): the per-scan
neighbor-picked buffer, the per-region label buffer, the cloud indices pushed
to `_cornerPointsSharp` and `_cornerPointsLessSharp`, and
`largestPickedNum`. -/
structure CornerState where
  picked : List ℕ
  labels : List PointLabel
  sharp : List ℕ
  lessSharp : List ℕ
  count : ℕ
deriving Repr

/-- The body of the corner-extraction loop (part_001 lines 584-597) for
candidate cloud index `idx`: a not-yet-picked point with curvature strictly
above the threshold is selected; `largestPickedNum` is incremented, the first
`maxCornerSharp` selections are labeled CORNER_SHARP and pushed to the sharp
cloud, later ones are labeled CORNER_LESS_SHARP; every selection is pushed to
the less-sharp cloud and triggers `markAsPicked`. -/
def cornerStep (cloud : ℕ → PointXYZI) (R : ℕ) (θ : ℚ) (maxSharp : ℕ)
    (scanStartIdx sp : ℕ) (curv : List ℚ) (st : CornerState) (idx : ℕ) : CornerState :=
  if pickedVal st.picked (idx - scanStartIdx) = 0 ∧ θ < curvAt curv sp idx then
    if st.count + 1 ≤ maxSharp then
      { picked := markAsPicked cloud R idx (idx - scanStartIdx) st.picked,
        labels := st.labels.set (idx - sp) PointLabel.CORNER_SHARP,
        sharp := st.sharp ++ [idx],
        lessSharp := st.lessSharp ++ [idx],
        count := st.count + 1 }
    else
      { picked := markAsPicked cloud R idx (idx - scanStartIdx) st.picked,
        labels := st.labels.set (idx - sp) PointLabel.CORNER_LESS_SHARP,
        sharp := st.sharp,
        lessSharp := st.lessSharp ++ [idx],
        count := st.count + 1 }
  else st

/-- The corner-extraction loop of part_001 lines 579-598: the candidate list
is traversed while `largestPickedNum < maxCornerLessSharp`. -/
def cornerLoop (cloud : ℕ → PointXYZI) (R : ℕ) (θ : ℚ) (maxSharp maxLessSharp : ℕ)
    (scanStartIdx sp : ℕ) (curv : List ℚ) : List ℕ → CornerState → CornerState
  | [], st => st
  | idx :: rest, st =>
    if st.count < maxLessSharp then
      cornerLoop cloud R θ maxSharp maxLessSharp scanStartIdx sp curv rest
        (cornerStep cloud R θ maxSharp scanStartIdx sp curv st idx)
    else st

/-- Corner extraction for one feature region: the loop of part_001 lines
579-598 walks `_regionSortIndices` from the highest curvature down, i.e. the
reverse of the ascending sort order, starting from `largestPickedNum = 0`,
the label buffer all SURFACE_LESS_FLAT (set by setRegionBuffersFor line 646),
empty output clouds, and the neighbor-picked buffer of the enclosing scan. -/
def extractCornerFeatures (cloud : ℕ → PointXYZI) (R : ℕ) (θ : ℚ)
    (maxSharp maxLessSharp scanStartIdx sp regionSize : ℕ)
    (curv : List ℚ) (sortIdx : List ℕ) (picked0 : List ℕ) : CornerState :=
  cornerLoop cloud R θ maxSharp maxLessSharp scanStartIdx sp curv sortIdx.reverse
    { picked := picked0,
      labels := List.replicate regionSize PointLabel.SURFACE_LESS_FLAT,
      sharp := [], lessSharp := [], count := 0 }

theorem labelAt_set_self (labels : List PointLabel) (sp idx : ℕ) (v : PointLabel)
    (h : idx - sp < labels.length) :
    labelAt (labels.set (idx - sp) v) sp idx = v := by
  rw [labelAt, List.getElem?_set_self h, Option.getD_some]

theorem labelAt_set_ne (labels : List PointLabel) (sp q x : ℕ) (v : PointLabel)
    (h : q ≠ x - sp) :
    labelAt (labels.set q v) sp x = labelAt labels sp x := by
  rw [labelAt, List.getElem?_set_ne h, labelAt]

/-- The invariant maintained by the corner-extraction loop: buffer lengths are
stable, the output sizes track `largestPickedNum` and the sharp quota, marks
only ever accumulate, every selected point was above threshold and unpicked
both initially and at selection time (hence is marked afterwards), the sharp
cloud is contained in the less-sharp cloud, and the labels record the
classification. -/
structure CornerInv (θ : ℚ) (maxSharp scanStartIdx sp regionSize : ℕ)
    (curv : List ℚ) (picked0 : List ℕ) (st : CornerState) : Prop where
  pickedLen : st.picked.length = picked0.length
  labelsLen : st.labels.length = regionSize
  lessLen : st.lessSharp.length = st.count
  sharpLen : st.sharp.length = min st.count maxSharp
  mono : ∀ p, pickedVal picked0 p ≠ 0 → pickedVal st.picked p ≠ 0
  lessMem : ∀ x ∈ st.lessSharp,
    θ < curvAt curv sp x ∧ pickedVal picked0 (x - scanStartIdx) = 0 ∧
      pickedVal st.picked (x - scanStartIdx) = 1 ∧
      scanStartIdx ≤ x ∧ sp ≤ x ∧ x - scanStartIdx < picked0.length ∧
      x - sp < regionSize
  sharpSub : ∀ x ∈ st.sharp, x ∈ st.lessSharp
  sharpLabel : ∀ x ∈ st.sharp, labelAt st.labels sp x = PointLabel.CORNER_SHARP
  lessLabel : ∀ x ∈ st.lessSharp, x ∉ st.sharp →
    labelAt st.labels sp x = PointLabel.CORNER_LESS_SHARP

theorem cornerStep_inv (cloud : ℕ → PointXYZI) (R : ℕ) (θ : ℚ)
    (maxSharp scanStartIdx sp regionSize : ℕ) (curv : List ℚ) (picked0 : List ℕ)
    (st : CornerState) (idx : ℕ)
    (hvx : scanStartIdx ≤ idx ∧ sp ≤ idx ∧ idx - scanStartIdx < picked0.length ∧
      idx - sp < regionSize)
    (h : CornerInv θ maxSharp scanStartIdx sp regionSize curv picked0 st) :
    CornerInv θ maxSharp scanStartIdx sp regionSize curv picked0
      (cornerStep cloud R θ maxSharp scanStartIdx sp curv st idx) := by
  rw [cornerStep]
  by_cases hcond : pickedVal st.picked (idx - scanStartIdx) = 0 ∧ θ < curvAt curv sp idx
  case neg => rw [if_neg hcond]; exact h
  rw [if_pos hcond]
  have hpIdx0 : pickedVal picked0 (idx - scanStartIdx) = 0 := by
    by_contra hne
    exact h.mono _ hne hcond.1
  have hlenpicked : idx - scanStartIdx < st.picked.length := by
    rw [h.pickedLen]; exact hvx.2.2.1
  have hmark1 : pickedVal (markAsPicked cloud R idx (idx - scanStartIdx) st.picked)
      (idx - scanStartIdx) = 1 :=
    markAsPicked_sets_self _ _ _ _ _ hlenpicked
  have hmarkOr := markAsPicked_pickedVal_or cloud R idx (idx - scanStartIdx) st.picked
  have hdistinct : ∀ x ∈ st.lessSharp, x ≠ idx ∧ x - sp ≠ idx - sp ∧
      x - scanStartIdx ≠ idx - scanStartIdx := by
    intro x hx
    obtain ⟨_, _, hxp1, hxs, hxsp, _, _⟩ := h.lessMem x hx
    have hscan : x - scanStartIdx ≠ idx - scanStartIdx := by
      intro hc
      rw [hc, hcond.1] at hxp1
      exact absurd hxp1 (by norm_num)
    refine ⟨?_, ?_, hscan⟩ <;> omega
  have hmono2 : ∀ p, pickedVal picked0 p ≠ 0 →
      pickedVal (markAsPicked cloud R idx (idx - scanStartIdx) st.picked) p ≠ 0 := by
    intro p hp
    rcases hmarkOr p with hor | hor
    · rw [hor]; exact h.mono p hp
    · rw [hor]; norm_num
  have hless2 : ∀ x ∈ st.lessSharp,
      pickedVal (markAsPicked cloud R idx (idx - scanStartIdx) st.picked)
        (x - scanStartIdx) = 1 := by
    intro x hx
    rcases hmarkOr (x - scanStartIdx) with hor | hor
    · rw [hor]; exact (h.lessMem x hx).2.2.1
    · exact hor
  by_cases hsharp : st.count + 1 ≤ maxSharp
  · rw [if_pos hsharp]
    refine ⟨?_, ?_, ?_, ?_, ?_, ?_, ?_, ?_, ?_⟩
    · show (markAsPicked cloud R idx (idx - scanStartIdx) st.picked).length = _
      rw [markAsPicked_length, h.pickedLen]
    · show (st.labels.set (idx - sp) PointLabel.CORNER_SHARP).length = _
      rw [List.length_set, h.labelsLen]
    · show (st.lessSharp ++ [idx]).length = st.count + 1
      rw [List.length_append, h.lessLen, List.length_singleton]
    · show (st.sharp ++ [idx]).length = min (st.count + 1) maxSharp
      rw [List.length_append, h.sharpLen, List.length_singleton]
      omega
    · exact hmono2
    · intro x hx
      rcases List.mem_append.mp hx with hx | hx
      · obtain ⟨ha, hb, _, hd, he, hf, hg⟩ := h.lessMem x hx
        exact ⟨ha, hb, hless2 x hx, hd, he, hf, hg⟩
      · rw [List.mem_singleton] at hx
        subst hx
        exact ⟨hcond.2, hpIdx0, hmark1, hvx.1, hvx.2.1, hvx.2.2.1, hvx.2.2.2⟩
    · intro x hx
      rcases List.mem_append.mp hx with hx | hx
      · exact List.mem_append_left _ (h.sharpSub x hx)
      · exact List.mem_append_right _ hx
    · intro x hx
      rcases List.mem_append.mp hx with hx | hx
      · have hxl := h.sharpSub x hx
        rw [labelAt_set_ne st.labels sp _ x _
            (fun hc => (hdistinct x hxl).2.1 hc.symm)]
        exact h.sharpLabel x hx
      · rw [List.mem_singleton] at hx
        subst hx
        exact labelAt_set_self st.labels sp x _ (by rw [h.labelsLen]; exact hvx.2.2.2)
    · intro x hx hnx
      have hxnotidx : x ≠ idx := by
        intro hc
        exact hnx (List.mem_append_right _ (by rw [hc]; exact List.mem_singleton_self idx))
      rcases List.mem_append.mp hx with hx | hx
      · have hnotold : x ∉ st.sharp := fun hc => hnx (List.mem_append_left _ hc)
        rw [labelAt_set_ne st.labels sp _ x _
            (fun hc => (hdistinct x hx).2.1 hc.symm)]
        exact h.lessLabel x hx hnotold
      · rw [List.mem_singleton] at hx
        exact absurd hx hxnotidx
  · rw [if_neg hsharp]
    refine ⟨?_, ?_, ?_, ?_, ?_, ?_, ?_, ?_, ?_⟩
    · show (markAsPicked cloud R idx (idx - scanStartIdx) st.picked).length = _
      rw [markAsPicked_length, h.pickedLen]
    · show (st.labels.set (idx - sp) PointLabel.CORNER_LESS_SHARP).length = _
      rw [List.length_set, h.labelsLen]
    · show (st.lessSharp ++ [idx]).length = st.count + 1
      rw [List.length_append, h.lessLen, List.length_singleton]
    · show st.sharp.length = min (st.count + 1) maxSharp
      rw [h.sharpLen]
      omega
    · exact hmono2
    · intro x hx
      rcases List.mem_append.mp hx with hx | hx
      · obtain ⟨ha, hb, _, hd, he, hf, hg⟩ := h.lessMem x hx
        exact ⟨ha, hb, hless2 x hx, hd, he, hf, hg⟩
      · rw [List.mem_singleton] at hx
        subst hx
        exact ⟨hcond.2, hpIdx0, hmark1, hvx.1, hvx.2.1, hvx.2.2.1, hvx.2.2.2⟩
    · intro x hx
      exact List.mem_append_left _ (h.sharpSub x hx)
    · intro x hx
      have hxl := h.sharpSub x hx
      rw [labelAt_set_ne st.labels sp _ x _
          (fun hc => (hdistinct x hxl).2.1 hc.symm)]
      exact h.sharpLabel x hx
    · intro x hx hnx
      rcases List.mem_append.mp hx with hx | hx
      · rw [labelAt_set_ne st.labels sp _ x _
            (fun hc => (hdistinct x hx).2.1 hc.symm)]
        exact h.lessLabel x hx hnx
      · rw [List.mem_singleton] at hx
        subst hx
        exact labelAt_set_self st.labels sp x _ (by rw [h.labelsLen]; exact hvx.2.2.2)

theorem cornerStep_count_le (cloud : ℕ → PointXYZI) (R : ℕ) (θ : ℚ)
    (maxSharp scanStartIdx sp : ℕ) (curv : List ℚ) (st : CornerState) (idx : ℕ) :
    (cornerStep cloud R θ maxSharp scanStartIdx sp curv st idx).count ≤ st.count + 1 := by
  rw [cornerStep]
  split_ifs <;> simp

theorem cornerLoop_inv (cloud : ℕ → PointXYZI) (R : ℕ) (θ : ℚ)
    (maxSharp maxLessSharp scanStartIdx sp regionSize : ℕ) (curv : List ℚ)
    (picked0 : List ℕ) :
    ∀ (l : List ℕ) (st : CornerState),
      (∀ x ∈ l, scanStartIdx ≤ x ∧ sp ≤ x ∧ x - scanStartIdx < picked0.length ∧
        x - sp < regionSize) →
      CornerInv θ maxSharp scanStartIdx sp regionSize curv picked0 st →
      CornerInv θ maxSharp scanStartIdx sp regionSize curv picked0
        (cornerLoop cloud R θ maxSharp maxLessSharp scanStartIdx sp curv l st) := by
  intro l
  induction l with
  | nil => intro st _ h; exact h
  | cons x l ih =>
    intro st hv h
    rw [cornerLoop]
    split
    · exact ih _ (fun y hy => hv y (List.mem_cons_of_mem x hy))
        (cornerStep_inv cloud R θ maxSharp scanStartIdx sp regionSize curv picked0 st x
          (hv x (List.mem_cons_self x l)) h)
    · exact h

theorem cornerLoop_count_le (cloud : ℕ → PointXYZI) (R : ℕ) (θ : ℚ)
    (maxSharp maxLessSharp scanStartIdx sp : ℕ) (curv : List ℚ) :
    ∀ (l : List ℕ) (st : CornerState), st.count ≤ maxLessSharp →
      (cornerLoop cloud R θ maxSharp maxLessSharp scanStartIdx sp curv l st).count ≤
        maxLessSharp := by
  intro l
  induction l with
  | nil => intro st h; exact h
  | cons x l ih =>
    intro st h
    rw [cornerLoop]
    split
    · next hlt =>
      refine ih _ ?_
      have := cornerStep_count_le cloud R θ maxSharp scanStartIdx sp curv st x
      omega
    · exact h

theorem cornerLoop_no_select (cloud : ℕ → PointXYZI) (R : ℕ) (θ : ℚ)
    (maxSharp maxLessSharp scanStartIdx sp : ℕ) (curv : List ℚ) :
    ∀ (l : List ℕ) (st : CornerState),
      (∀ x ∈ l, ¬ (pickedVal st.picked (x - scanStartIdx) = 0 ∧ θ < curvAt curv sp x)) →
      cornerLoop cloud R θ maxSharp maxLessSharp scanStartIdx sp curv l st = st := by
  intro l
  induction l with
  | nil => intro st _; rfl
  | cons x l ih =>
    intro st hno
    rw [cornerLoop]
    split
    · rw [cornerStep, if_neg (hno x (List.mem_cons_self x l))]
      exact ih st (fun y hy => hno y (List.mem_cons_of_mem x hy))
    · rfl

theorem cornerLoop_unique_select (cloud : ℕ → PointXYZI) (R : ℕ) (θ : ℚ)
    (maxSharp maxLessSharp scanStartIdx sp r : ℕ) (curv : List ℚ) :
    ∀ (l : List ℕ) (st : CornerState),
      (∀ x ∈ l, θ < curvAt curv sp x → x = sp + r) →
      θ < curvAt curv sp (sp + r) →
      (sp + r) ∈ l →
      st.sharp = [] → st.count = 0 →
      pickedVal st.picked (sp + r - scanStartIdx) = 0 →
      sp + r - scanStartIdx < st.picked.length →
      1 ≤ maxSharp → 1 ≤ maxLessSharp →
      (cornerLoop cloud R θ maxSharp maxLessSharp scanStartIdx sp curv l st).sharp =
        [sp + r] := by
  intro l
  induction l with
  | nil => intro st _ _ hmem; exact absurd hmem (List.not_mem_nil _)
  | cons x l ih =>
    intro st honly hcurv hmem hsharp0 hcount0 hpicked0 hlen hms hmls
    rw [cornerLoop, if_pos (by omega)]
    by_cases hx : x = sp + r
    · subst hx
      rw [cornerStep, if_pos ⟨hpicked0, hcurv⟩, if_pos (by omega)]
      rw [cornerLoop_no_select]
      · rw [hsharp0]
        rfl
      · intro y hy hcond2
        have hyx : y = sp + r := honly y (List.mem_cons_of_mem (sp + r) hy) hcond2.2
        have hm : pickedVal (markAsPicked cloud R (sp + r) (sp + r - scanStartIdx)
            st.picked) (sp + r - scanStartIdx) = 1 :=
          markAsPicked_sets_self _ _ _ _ _ hlen
        have hp2 : pickedVal (markAsPicked cloud R (sp + r) (sp + r - scanStartIdx)
            st.picked) (sp + r - scanStartIdx) = 0 := by
          have hc := hcond2.1
          rw [hyx] at hc
          exact hc
        rw [hm] at hp2
        exact absurd hp2 (by norm_num)
    · have hstep : cornerStep cloud R θ maxSharp scanStartIdx sp curv st x = st := by
        rw [cornerStep, if_neg]
        rintro ⟨_, hc⟩
        exact hx (honly x (List.mem_cons_self x l) hc)
      rw [hstep]
      refine ih st (fun y hy => honly y (List.mem_cons_of_mem x hy)) hcurv ?_
        hsharp0 hcount0 hpicked0 hlen hms hmls
      rcases List.mem_cons.mp hmem with hc | hc
      · exact absurd hc.symm hx
      · exact hc


/-- C2: in the corner extraction of one feature region (part_001 lines
577-598), at most `maxCornerSharp` points are labeled sharp, at most
`maxCornerLessSharp` corner points are selected in total, every selected
corner candidate has curvature strictly above `surfaceCurvatureThreshold` and
was not yet picked (neither when the region started nor when it was reached),
and in a region whose only point above the threshold is `sp + r`, exactly one
sharp corner is produced, namely `sp + r`.  The hypothesis `hvalid` states
that the candidate indices lie in the enclosing scan and region, as
guaranteed by `setRegionBuffersFor` (part_001 lines 639-674). -/
theorem C2_corner_selection (cloud : ℕ → PointXYZI) (R : ℕ) (θ : ℚ)
    (maxSharp maxLessSharp scanStartIdx sp regionSize : ℕ)
    (curv : List ℚ) (sortIdx : List ℕ) (picked0 : List ℕ)
    (hvalid : ∀ x ∈ sortIdx, scanStartIdx ≤ x ∧ sp ≤ x ∧
      x - scanStartIdx < picked0.length ∧ x - sp < regionSize) :
    (extractCornerFeatures cloud R θ maxSharp maxLessSharp scanStartIdx sp regionSize
        curv sortIdx picked0).sharp.length ≤ maxSharp ∧
    (extractCornerFeatures cloud R θ maxSharp maxLessSharp scanStartIdx sp regionSize
        curv sortIdx picked0).lessSharp.length ≤ maxLessSharp ∧
    (∀ x ∈ (extractCornerFeatures cloud R θ maxSharp maxLessSharp scanStartIdx sp
        regionSize curv sortIdx picked0).lessSharp,
      θ < curvAt curv sp x ∧ pickedVal picked0 (x - scanStartIdx) = 0) ∧
    (∀ r : ℕ,
      (∀ x ∈ sortIdx, θ < curvAt curv sp x → x = sp + r) →
      θ < curvAt curv sp (sp + r) →
      (sp + r) ∈ sortIdx →
      pickedVal picked0 (sp + r - scanStartIdx) = 0 →
      sp + r - scanStartIdx < picked0.length →
      1 ≤ maxSharp → 1 ≤ maxLessSharp →
      (extractCornerFeatures cloud R θ maxSharp maxLessSharp scanStartIdx sp regionSize
        curv sortIdx picked0).sharp = [sp + r]) := by
  have hinv0 : CornerInv θ maxSharp scanStartIdx sp regionSize curv picked0
      { picked := picked0,
        labels := List.replicate regionSize PointLabel.SURFACE_LESS_FLAT,
        sharp := [], lessSharp := [], count := 0 } := by
    refine ⟨rfl, List.length_replicate _ _, rfl, by simp, fun p hp => hp, ?_, ?_, ?_, ?_⟩
    · intro x hx; exact absurd hx (List.not_mem_nil x)
    · intro x hx; exact absurd hx (List.not_mem_nil x)
    · intro x hx; exact absurd hx (List.not_mem_nil x)
    · intro x hx _; exact absurd hx (List.not_mem_nil x)
  have hvalidrev : ∀ x ∈ sortIdx.reverse, scanStartIdx ≤ x ∧ sp ≤ x ∧
      x - scanStartIdx < picked0.length ∧ x - sp < regionSize :=
    fun x hx => hvalid x (List.mem_reverse.mp hx)
  have hinv := cornerLoop_inv cloud R θ maxSharp maxLessSharp scanStartIdx sp regionSize
    curv picked0 sortIdx.reverse _ hvalidrev hinv0
  have hcount := cornerLoop_count_le cloud R θ maxSharp maxLessSharp scanStartIdx sp
    curv sortIdx.reverse
    { picked := picked0,
      labels := List.replicate regionSize PointLabel.SURFACE_LESS_FLAT,
      sharp := [], lessSharp := [], count := 0 } (Nat.zero_le _)
  refine ⟨?_, ?_, ?_, ?_⟩
  · rw [extractCornerFeatures, hinv.sharpLen]
    exact min_le_right _ _
  · rw [extractCornerFeatures, hinv.lessLen]
    exact hcount
  · intro x hx
    rw [extractCornerFeatures] at hx
    exact ⟨(hinv.lessMem x hx).1, (hinv.lessMem x hx).2.1⟩
  · intro r honly hcurv hmem hp0 hlen hms hmls
    rw [extractCornerFeatures]
    exact cornerLoop_unique_select cloud R θ maxSharp maxLessSharp scanStartIdx sp r curv
      sortIdx.reverse _ (fun x hx => honly x (List.mem_reverse.mp hx)) hcurv
      (List.mem_reverse.mpr hmem) rfl rfl hp0 hlen hms hmls

/-- C2, witness: the quota and exactly-one conclusions of the theorem at a
concrete three-point region with one point of curvature 1 above the threshold
1/10: exactly the point with cloud index 1 is labeled sharp. -/
theorem C2_corner_selection_witness :
    (extractCornerFeatures cloudC1 1 (1/10) 2 20 0 0 3 [0, 1, 0] [0, 2, 1]
        [0, 0, 0]).sharp.length ≤ 2 ∧
    (extractCornerFeatures cloudC1 1 (1/10) 2 20 0 0 3 [0, 1, 0] [0, 2, 1]
        [0, 0, 0]).sharp = [0 + 1] := by
  have h := C2_corner_selection cloudC1 1 (1/10) 2 20 0 0 3 [0, 1, 0] [0, 2, 1] [0, 0, 0]
    (by intro x hx; fin_cases hx <;> norm_num)
  refine ⟨h.1, h.2.2.2 1 ?_ ?_ ?_ ?_ ?_ ?_ ?_⟩
  · intro x hx
    fin_cases hx <;> norm_num [curvAt]
  · norm_num [curvAt]
  · norm_num
  · norm_num [pickedVal]
  · norm_num
  · norm_num
  · norm_num

/-- C10, amended: every selected sharp corner is labeled CORNER_SHARP and
appears in BOTH corner output clouds (the source pushes every corner
candidate, sharp ones included, to `_cornerPointsLessSharp` at part_001 line
594), and every selected corner that is not sharp is labeled
CORNER_LESS_SHARP and appears in the less-sharp cloud; so the claim that a
selected corner point appears only in the cloud of its own label fails for
the sharp points. -/
theorem C10_corner_clouds (cloud : ℕ → PointXYZI) (R : ℕ) (θ : ℚ)
    (maxSharp maxLessSharp scanStartIdx sp regionSize : ℕ)
    (curv : List ℚ) (sortIdx : List ℕ) (picked0 : List ℕ)
    (hvalid : ∀ x ∈ sortIdx, scanStartIdx ≤ x ∧ sp ≤ x ∧
      x - scanStartIdx < picked0.length ∧ x - sp < regionSize) :
    (∀ x ∈ (extractCornerFeatures cloud R θ maxSharp maxLessSharp scanStartIdx sp
        regionSize curv sortIdx picked0).sharp,
      x ∈ (extractCornerFeatures cloud R θ maxSharp maxLessSharp scanStartIdx sp
        regionSize curv sortIdx picked0).lessSharp ∧
      labelAt (extractCornerFeatures cloud R θ maxSharp maxLessSharp scanStartIdx sp
        regionSize curv sortIdx picked0).labels sp x = PointLabel.CORNER_SHARP) ∧
    (∀ x ∈ (extractCornerFeatures cloud R θ maxSharp maxLessSharp scanStartIdx sp
        regionSize curv sortIdx picked0).lessSharp,
      x ∉ (extractCornerFeatures cloud R θ maxSharp maxLessSharp scanStartIdx sp
        regionSize curv sortIdx picked0).sharp →
      labelAt (extractCornerFeatures cloud R θ maxSharp maxLessSharp scanStartIdx sp
        regionSize curv sortIdx picked0).labels sp x = PointLabel.CORNER_LESS_SHARP) := by
  have hinv0 : CornerInv θ maxSharp scanStartIdx sp regionSize curv picked0
      { picked := picked0,
        labels := List.replicate regionSize PointLabel.SURFACE_LESS_FLAT,
        sharp := [], lessSharp := [], count := 0 } := by
    refine ⟨rfl, List.length_replicate _ _, rfl, by simp, fun p hp => hp, ?_, ?_, ?_, ?_⟩
    · intro x hx; exact absurd hx (List.not_mem_nil x)
    · intro x hx; exact absurd hx (List.not_mem_nil x)
    · intro x hx; exact absurd hx (List.not_mem_nil x)
    · intro x hx _; exact absurd hx (List.not_mem_nil x)
  have hvalidrev : ∀ x ∈ sortIdx.reverse, scanStartIdx ≤ x ∧ sp ≤ x ∧
      x - scanStartIdx < picked0.length ∧ x - sp < regionSize :=
    fun x hx => hvalid x (List.mem_reverse.mp hx)
  have hinv := cornerLoop_inv cloud R θ maxSharp maxLessSharp scanStartIdx sp regionSize
    curv picked0 sortIdx.reverse _ hvalidrev hinv0
  constructor
  · intro x hx
    rw [extractCornerFeatures] at hx ⊢
    exact ⟨hinv.sharpSub x hx, hinv.sharpLabel x hx⟩
  · intro x hx hnx
    rw [extractCornerFeatures] at hx hnx ⊢
    exact hinv.lessLabel x hx hnx

/-- C10, counterexample: in the concrete three-point region of the C2
witness, the single selected corner (cloud index 1) is labeled CORNER_SHARP,
yet it is pushed to the less-sharp corner cloud as well, so a sharp-labeled
point appears in a cloud whose label it does not carry. -/
theorem C10_counterexample :
    (extractCornerFeatures cloudC1 1 (1/10) 2 20 0 0 3 [0, 1, 0] [1]
        [0, 0, 0]).sharp = [1] ∧
    labelAt (extractCornerFeatures cloudC1 1 (1/10) 2 20 0 0 3 [0, 1, 0] [1]
        [0, 0, 0]).labels 0 1 = PointLabel.CORNER_SHARP ∧
    1 ∈ (extractCornerFeatures cloudC1 1 (1/10) 2 20 0 0 3 [0, 1, 0] [1]
        [0, 0, 0]).lessSharp := by
  norm_num [extractCornerFeatures, cornerLoop, cornerStep, markAsPicked, markFrom,
    markBack, pickedVal, curvAt, labelAt, cloudC1, calcSquaredDiff,
    calcSquaredPointDistance, List.getElem?_set]

/-- C10, witness: the amended theorem at the concrete one-candidate region:
the sharp point 1 is in the less-sharp cloud too and carries the sharp
label. -/
theorem C10_corner_clouds_witness :
    1 ∈ (extractCornerFeatures cloudC1 1 (1/10) 2 20 0 0 3 [0, 1, 0] [1]
        [0, 0, 0]).lessSharp ∧
    labelAt (extractCornerFeatures cloudC1 1 (1/10) 2 20 0 0 3 [0, 1, 0] [1]
        [0, 0, 0]).labels 0 1 = PointLabel.CORNER_SHARP :=
  (C10_corner_clouds cloudC1 1 (1/10) 2 20 0 0 3 [0, 1, 0] [1] [0, 0, 0]
      (by intro x hx; fin_cases hx; norm_num)).1 1
    (by norm_num [extractCornerFeatures, cornerLoop, cornerStep, markAsPicked, markFrom,
      markBack, pickedVal, curvAt, cloudC1, calcSquaredDiff, calcSquaredPointDistance])


/-! ## C4: IMU integration (`ScanRegistration::handleIMUMessage`) -/

/-- A 3-vector over exact rationals, mirroring `loam::Vector3`. -/
structure Vector3 where
  x : ℚ
  y : ℚ
  z : ℚ
deriving DecidableEq, Repr

instance : Add Vector3 := ⟨fun a b => ⟨a.x + b.x, a.y + b.y, a.z + b.z⟩⟩

instance : SMul ℚ Vector3 := ⟨fun q a => ⟨q * a.x, q * a.y, q * a.z⟩⟩

theorem Vector3.add_def (a b : Vector3) :
    a + b = ⟨a.x + b.x, a.y + b.y, a.z + b.z⟩ := rfl

theorem Vector3.smul_def (q : ℚ) (a : Vector3) :
    q • a = ⟨q * a.x, q * a.y, q * a.z⟩ := rfl

/-- The zero vector (the default `Vector3` constructor value). -/
def Vector3.zero : Vector3 := ⟨0, 0, 0⟩

/-- An angle as cached by `loam::Angle` (math_utils, not under `src/`): the
radian value together with its stored cosine and sine. -/
structure Angle where
  rad : ℚ
  cos : ℚ
  sin : ℚ
deriving DecidableEq, Repr

/-- The zero angle. -/
def Angle.zero : Angle := ⟨0, 1, 0⟩

/-- Modelled from the spec: rotation about the X axis by a cached angle
(`rotX` of math_utils.h, not under `src/`). -/
def rotX (v : Vector3) (a : Angle) : Vector3 :=
  ⟨v.x, a.cos * v.y - a.sin * v.z, a.sin * v.y + a.cos * v.z⟩

/-- Modelled from the spec: rotation about the Y axis by a cached angle. -/
def rotY (v : Vector3) (a : Angle) : Vector3 :=
  ⟨a.cos * v.x + a.sin * v.z, v.y, -a.sin * v.x + a.cos * v.z⟩

/-- Modelled from the spec: rotation about the Z axis by a cached angle. -/
def rotZ (v : Vector3) (a : Angle) : Vector3 :=
  ⟨a.cos * v.x - a.sin * v.y, a.sin * v.x + a.cos * v.y, v.z⟩

/-- Modelled from the spec: `rotateZXY` of math_utils.h (not under `src/`)
rotates about Z, then X, then Y; `handleIMUMessage` calls it with the roll,
pitch and yaw of the new sample to move the acceleration into the global
frame. -/
def rotateZXY (v : Vector3) (angZ angX angY : Angle) : Vector3 :=
  rotY (rotX (rotZ v angZ) angX) angY

/-- An IMU sample (`loam::IMUState`, header not under `src/`; fields as used
by part_001): timestamp, orientation, gravity-adjusted acceleration, and the
integrated velocity and position, which the default constructor zeroes. -/
structure IMUState where
  stamp : ℚ
  roll : Angle
  pitch : Angle
  yaw : Angle
  acceleration : Vector3
  velocity : Vector3
  position : Vector3
deriving DecidableEq, Repr

/-- Modelled from the spec: the bounded IMU history
(`loam::CircularBuffer`, not under `src/`): a fixed-capacity FIFO, oldest
first; pushing at capacity evicts the oldest sample. -/
structure CircularBuffer where
  capacity : ℕ
  buffer : List IMUState
deriving Repr

/-- Push a sample, evicting the oldest when the buffer is full. -/
def CircularBuffer.push (cb : CircularBuffer) (s : IMUState) : CircularBuffer :=
  if cb.buffer.length < cb.capacity then ⟨cb.capacity, cb.buffer ++ [s]⟩
  else ⟨cb.capacity, cb.buffer.tail ++ [s]⟩

theorem CircularBuffer.push_getLast (cb : CircularBuffer) (s : IMUState) :
    (cb.push s).buffer.getLast? = some s := by
  rw [CircularBuffer.push]
  split <;> exact List.getLast?_concat _

/-- The core of `ScanRegistration::handleIMUMessage` (part_001 lines
443-463), starting from the already gravity-adjusted acceleration `acc` and
the roll/pitch/yaw extracted from the message orientation: the new state
carries the raw acceleration and zero velocity/position; when the history is
non-empty, the acceleration is first rotated into the global frame with the
NEW orientation and the position and velocity are integrated from the last
stored state by constant-acceleration kinematics over the elapsed time. -/
def handleIMUMessage (hist : CircularBuffer) (stamp : ℚ)
    (roll pitch yaw : Angle) (acc : Vector3) : CircularBuffer :=
  match hist.buffer.getLast? with
  | none =>
    hist.push { stamp := stamp, roll := roll, pitch := pitch, yaw := yaw,
                acceleration := acc, velocity := Vector3.zero,
                position := Vector3.zero }
  | some prev =>
    hist.push { stamp := stamp, roll := roll, pitch := pitch, yaw := yaw,
                acceleration := acc,
                velocity := prev.velocity +
                  (stamp - prev.stamp) • rotateZXY acc roll pitch yaw,
                position := prev.position + (stamp - prev.stamp) • prev.velocity +
                  ((1/2) * (stamp - prev.stamp) * (stamp - prev.stamp)) •
                    rotateZXY acc roll pitch yaw }

/-- C4: when the history is non-empty, the newly pushed sample integrates the
previous one by constant-acceleration kinematics - `velocity + accel * dt`
and `position + velocity * dt + accel * dt^2 / 2` - with the acceleration
first rotated into the global frame by the new sample's orientation (first
conjunct, part_001 lines 450-463); concretely, two samples 0.1 s apart with
identity orientation, global acceleration (0,0,1) and zero initial
velocity/position give the second sample velocity (0,0,0.1) and position
(0,0,0.005) (second conjunct). -/
theorem C4_imu_integration :
    (∀ (hist : CircularBuffer) (stamp : ℚ) (roll pitch yaw : Angle) (acc : Vector3)
      (prev : IMUState), hist.buffer.getLast? = some prev →
      (handleIMUMessage hist stamp roll pitch yaw acc).buffer.getLast? =
        some { stamp := stamp, roll := roll, pitch := pitch, yaw := yaw,
               acceleration := acc,
               velocity := prev.velocity +
                 (stamp - prev.stamp) • rotateZXY acc roll pitch yaw,
               position := prev.position + (stamp - prev.stamp) • prev.velocity +
                 ((1/2) * (stamp - prev.stamp) * (stamp - prev.stamp)) •
                   rotateZXY acc roll pitch yaw }) ∧
    (handleIMUMessage
        (handleIMUMessage ⟨200, []⟩ 0 Angle.zero Angle.zero Angle.zero ⟨0, 0, 1⟩)
        (1/10) Angle.zero Angle.zero Angle.zero ⟨0, 0, 1⟩).buffer.getLast? =
      some { stamp := 1/10, roll := Angle.zero, pitch := Angle.zero,
             yaw := Angle.zero, acceleration := ⟨0, 0, 1⟩,
             velocity := ⟨0, 0, 1/10⟩, position := ⟨0, 0, 1/200⟩ } := by
  have hgen : ∀ (hist : CircularBuffer) (stamp : ℚ) (roll pitch yaw : Angle)
      (acc : Vector3) (prev : IMUState), hist.buffer.getLast? = some prev →
      (handleIMUMessage hist stamp roll pitch yaw acc).buffer.getLast? =
        some { stamp := stamp, roll := roll, pitch := pitch, yaw := yaw,
               acceleration := acc,
               velocity := prev.velocity +
                 (stamp - prev.stamp) • rotateZXY acc roll pitch yaw,
               position := prev.position + (stamp - prev.stamp) • prev.velocity +
                 ((1/2) * (stamp - prev.stamp) * (stamp - prev.stamp)) •
                   rotateZXY acc roll pitch yaw } := by
    intro hist stamp roll pitch yaw acc prev hlast
    rw [handleIMUMessage, hlast]
    exact CircularBuffer.push_getLast _ _
  refine ⟨hgen, ?_⟩
  have h1 : (handleIMUMessage ⟨200, []⟩ 0 Angle.zero Angle.zero Angle.zero
      ⟨0, 0, 1⟩).buffer.getLast? =
      some { stamp := 0, roll := Angle.zero, pitch := Angle.zero, yaw := Angle.zero,
             acceleration := ⟨0, 0, 1⟩, velocity := Vector3.zero,
             position := Vector3.zero } := by
    rfl
  rw [hgen _ _ _ _ _ _ _ h1]
  norm_num [rotateZXY, rotX, rotY, rotZ, Angle.zero, Vector3.zero,
    Vector3.add_def, Vector3.smul_def]

/-- C4, witness: the general conjunct applied to a concrete one-sample
history with dt = 0.1 and identity orientation. -/
theorem C4_imu_integration_witness :
    (handleIMUMessage
        ⟨200, [{ stamp := 0, roll := Angle.zero, pitch := Angle.zero,
                 yaw := Angle.zero, acceleration := ⟨0, 0, 1⟩,
                 velocity := Vector3.zero, position := Vector3.zero }]⟩
        (1/10) Angle.zero Angle.zero Angle.zero ⟨0, 0, 1⟩).buffer.getLast? =
      some { stamp := 1/10, roll := Angle.zero, pitch := Angle.zero,
             yaw := Angle.zero, acceleration := ⟨0, 0, 1⟩,
             velocity := Vector3.zero +
               ((1/10 : ℚ) - 0) • rotateZXY ⟨0, 0, 1⟩ Angle.zero Angle.zero Angle.zero,
             position := Vector3.zero + ((1/10 : ℚ) - 0) • Vector3.zero +
               ((1/2) * ((1/10 : ℚ) - 0) * ((1/10 : ℚ) - 0)) •
                 rotateZXY ⟨0, 0, 1⟩ Angle.zero Angle.zero Angle.zero } :=
  C4_imu_integration.1
    ⟨200, [{ stamp := 0, roll := Angle.zero, pitch := Angle.zero,
             yaw := Angle.zero, acceleration := ⟨0, 0, 1⟩,
             velocity := Vector3.zero, position := Vector3.zero }]⟩
    (1/10) Angle.zero Angle.zero Angle.zero ⟨0, 0, 1⟩
    { stamp := 0, roll := Angle.zero, pitch := Angle.zero,
      yaw := Angle.zero, acceleration := ⟨0, 0, 1⟩,
      velocity := Vector3.zero, position := Vector3.zero } (by simp)


/-! ## C6: IMU state interpolation (`ScanRegistration::interpolateIMUStateFor`) -/

/-- The stamp of the history entry at logical index `i` (the circular buffer
indexes from the oldest entry; out-of-range reads never occur in the uses
below and default to 0). -/
def stampAt (hist : List IMUState) (i : ℕ) : ℚ :=
  ((hist[i]?).map IMUState.stamp).getD 0

/-- A placeholder sample for out-of-range reads (never reached in the uses
below). -/
def dummyIMUState : IMUState :=
  { stamp := 0, roll := Angle.zero, pitch := Angle.zero, yaw := Angle.zero,
    acceleration := Vector3.zero, velocity := Vector3.zero,
    position := Vector3.zero }

/-- The history entry at logical index `i`. -/
def stateAt (hist : List IMUState) (i : ℕ) : IMUState :=
  (hist[i]?).getD dummyIMUState

/-- Linear interpolation of a cached angle by `ratio`. -/
def Angle.lerp (a b : Angle) (r : ℚ) : Angle :=
  ⟨a.rad * (1 - r) + b.rad * r, a.cos * (1 - r) + b.cos * r,
   a.sin * (1 - r) + b.sin * r⟩

/-- Linear interpolation of a vector by `ratio`. -/
def Vector3.lerp (a b : Vector3) (r : ℚ) : Vector3 :=
  ⟨a.x * (1 - r) + b.x * r, a.y * (1 - r) + b.y * r, a.z * (1 - r) + b.z * r⟩

/-- Modelled from the spec: `IMUState::interpolate` (IMUState.h, not under
`src/`), which linearly interpolates all fields between two samples by the
fractional time ratio; the source calls it with `start` the later and `stop`
the earlier bracketing sample. -/
def IMUState.interpolate (start stop : IMUState) (r : ℚ) : IMUState :=
  { stamp := start.stamp * (1 - r) + stop.stamp * r,
    roll := Angle.lerp start.roll stop.roll r,
    pitch := Angle.lerp start.pitch stop.pitch r,
    yaw := Angle.lerp start.yaw stop.yaw r,
    acceleration := Vector3.lerp start.acceleration stop.acceleration r,
    velocity := Vector3.lerp start.velocity stop.velocity r,
    position := Vector3.lerp start.position stop.position r }

theorem IMUState.interpolate_zero (s e : IMUState) : IMUState.interpolate s e 0 = s := by
  cases s with
  | mk stamp roll pitch yaw accel vel pos =>
    cases roll; cases pitch; cases yaw; cases accel; cases vel; cases pos
    norm_num [IMUState.interpolate, Angle.lerp, Vector3.lerp]

/-- The forward scan of `ScanRegistration::interpolateIMUStateFor` (part_001
lines 526-530): advance the cursor while it is not at the last sample and
`timeDiff = T - stamp[idx]` is still positive; `fuel` bounds the loop and
with `fuel = hist.length` it never runs out first. -/
def imuScanForward (hist : List IMUState) (T : ℚ) : ℕ → ℕ → ℕ
  | 0, idx => idx
  | fuel + 1, idx =>
    if idx < hist.length - 1 ∧ 0 < T - stampAt hist idx then
      imuScanForward hist T fuel (idx + 1)
    else idx

/-- `ScanRegistration::interpolateIMUStateFor` (part_001 lines 523-538) for a
scan starting at history cursor `idx0` (`reset` puts the cursor at 0 for each
scan); returns the new cursor and the output state.  `timeDiff = (scanTime -
stamp) + relTime` equals `(scanTime + relTime) - stamp` exactly. -/
def interpolateIMUStateFor (hist : List IMUState) (scanTime relTime : ℚ)
    (idx0 : ℕ) : ℕ × IMUState :=
  if imuScanForward hist (scanTime + relTime) hist.length idx0 = 0 ∨
      0 < (scanTime + relTime) -
        stampAt hist (imuScanForward hist (scanTime + relTime) hist.length idx0) then
    (imuScanForward hist (scanTime + relTime) hist.length idx0,
     stateAt hist (imuScanForward hist (scanTime + relTime) hist.length idx0))
  else
    (imuScanForward hist (scanTime + relTime) hist.length idx0,
     IMUState.interpolate
       (stateAt hist (imuScanForward hist (scanTime + relTime) hist.length idx0))
       (stateAt hist (imuScanForward hist (scanTime + relTime) hist.length idx0 - 1))
       (-((scanTime + relTime) -
           stampAt hist (imuScanForward hist (scanTime + relTime) hist.length idx0)) /
         (stampAt hist (imuScanForward hist (scanTime + relTime) hist.length idx0) -
          stampAt hist
            (imuScanForward hist (scanTime + relTime) hist.length idx0 - 1))))

theorem imuScanForward_spec (hist : List IMUState) (T : ℚ) :
    ∀ (fuel idx : ℕ), hist.length - 1 - idx ≤ fuel →
      idx ≤ imuScanForward hist T fuel idx ∧
      imuScanForward hist T fuel idx ≤ max idx (hist.length - 1) ∧
      ¬ (imuScanForward hist T fuel idx < hist.length - 1 ∧
         0 < T - stampAt hist (imuScanForward hist T fuel idx)) ∧
      (∀ k, idx ≤ k → k < imuScanForward hist T fuel idx →
        k < hist.length - 1 ∧ 0 < T - stampAt hist k) := by
  intro fuel
  induction fuel with
  | zero =>
    intro idx hfuel
    rw [imuScanForward]
    refine ⟨Nat.le_refl idx, Nat.le_max_left _ _, ?_, ?_⟩
    · rintro ⟨hlt, _⟩
      omega
    · intro k hk1 hk2
      omega
  | succ fuel ih =>
    intro idx hfuel
    rw [imuScanForward]
    split
    · next hcond =>
      obtain ⟨ih1, ih2, ih3, ih4⟩ := ih (idx + 1) (by omega)
      refine ⟨by omega, by omega, ih3, ?_⟩
      intro k hk1 hk2
      rcases Nat.eq_or_lt_of_le hk1 with rfl | hk1'
      · exact hcond
      · exact ih4 k (by omega) hk2
    · next hcond =>
      refine ⟨Nat.le_refl idx, Nat.le_max_left _ _, hcond, ?_⟩
      intro k hk1 hk2
      omega

theorem stampAt_strict_mono (hist : List IMUState)
    (hs : ∀ i, i + 1 < hist.length → stampAt hist i < stampAt hist (i + 1)) :
    ∀ i j, i < j → j < hist.length → stampAt hist i < stampAt hist j := by
  intro i j
  induction j with
  | zero => omega
  | succ j ih =>
    intro hij hj
    rcases Nat.lt_or_ge i j with h | h
    · exact lt_trans (ih h (by omega)) (hs j hj)
    · have hieq : i = j := by omega
      subst hieq
      exact hs i hj

/-- C6: for a non-empty, strictly time-sorted IMU history and a fresh cursor,
`interpolateIMUStateFor` (a) returns the exact stored sample when the target
time `scanTime + relTime` coincides with a sample stamp, (b) linearly
interpolates all fields between the bracketing samples (with ratio the
fractional position of the target measured from the later sample) when the
target lies strictly between two stamps, and (c) clamps to the first or last
sample without extrapolating when the target is before the first or after the
last stamp. -/
theorem C6_interpolation (hist : List IMUState) (scanTime relTime : ℚ)
    (hne : 0 < hist.length)
    (hs : ∀ i, i + 1 < hist.length → stampAt hist i < stampAt hist (i + 1)) :
    (∀ j, j < hist.length → scanTime + relTime = stampAt hist j →
      (interpolateIMUStateFor hist scanTime relTime 0).2 = stateAt hist j) ∧
    (∀ j, j + 1 < hist.length →
      stampAt hist j < scanTime + relTime →
      scanTime + relTime < stampAt hist (j + 1) →
      (interpolateIMUStateFor hist scanTime relTime 0).2 =
        IMUState.interpolate (stateAt hist (j + 1)) (stateAt hist j)
          ((stampAt hist (j + 1) - (scanTime + relTime)) /
            (stampAt hist (j + 1) - stampAt hist j))) ∧
    (scanTime + relTime ≤ stampAt hist 0 →
      (interpolateIMUStateFor hist scanTime relTime 0).2 = stateAt hist 0) ∧
    (stampAt hist (hist.length - 1) ≤ scanTime + relTime →
      (interpolateIMUStateFor hist scanTime relTime 0).2 =
        stateAt hist (hist.length - 1)) := by
  obtain ⟨hA, hB, hC, hD⟩ :=
    imuScanForward_spec hist (scanTime + relTime) hist.length 0 (by omega)
  refine ⟨?_, ?_, ?_, ?_⟩
  · -- exact coincidence
    intro j hj hT
    have hr : imuScanForward hist (scanTime + relTime) hist.length 0 = j := by
      by_contra hne2
      rcases Nat.lt_or_ge (imuScanForward hist (scanTime + relTime) hist.length 0) j
        with hlt | hge
      · have hrlen : imuScanForward hist (scanTime + relTime) hist.length 0 <
            hist.length - 1 := by omega
        have := hC
        rw [not_and] at this
        have hstop := this hrlen
        have hmono : stampAt hist (imuScanForward hist (scanTime + relTime)
            hist.length 0) < stampAt hist j :=
          stampAt_strict_mono hist hs _ j hlt hj
        rw [← hT] at hmono
        have : 0 < (scanTime + relTime) -
            stampAt hist (imuScanForward hist (scanTime + relTime) hist.length 0) := by
          linarith
        exact hstop this
      · have hlt : j < imuScanForward hist (scanTime + relTime) hist.length 0 := by
          omega
        have := (hD j (Nat.zero_le j) hlt).2
        rw [← hT] at this
        linarith
    rw [interpolateIMUStateFor, hr]
    by_cases hj0 : j = 0
    · rw [if_pos (Or.inl hj0), hj0]
    · rw [if_neg]
      · rw [show (scanTime + relTime) - stampAt hist j = 0 by rw [hT]; ring]
        norm_num [IMUState.interpolate_zero]
      · rintro (hc | hc)
        · exact hj0 hc
        · rw [← hT] at hc
          simp at hc
  · -- strictly between two samples
    intro j hj hlow hhigh
    have hr : imuScanForward hist (scanTime + relTime) hist.length 0 = j + 1 := by
      by_contra hne2
      rcases Nat.lt_or_ge (imuScanForward hist (scanTime + relTime) hist.length 0)
        (j + 1) with hlt | hge
      · have hrlen : imuScanForward hist (scanTime + relTime) hist.length 0 <
            hist.length - 1 := by omega
        have hstop := not_and.mp hC hrlen
        have hle : stampAt hist (imuScanForward hist (scanTime + relTime)
            hist.length 0) ≤ stampAt hist j := by
          rcases Nat.lt_or_ge (imuScanForward hist (scanTime + relTime) hist.length 0) j
            with hlt2 | hge2
          · exact le_of_lt (stampAt_strict_mono hist hs _ j hlt2 (by omega))
          · have : imuScanForward hist (scanTime + relTime) hist.length 0 = j := by
              omega
            rw [this]
        have : 0 < (scanTime + relTime) -
            stampAt hist (imuScanForward hist (scanTime + relTime) hist.length 0) := by
          linarith
        exact hstop this
      · have hlt : j + 1 < imuScanForward hist (scanTime + relTime) hist.length 0 := by
          omega
        have := (hD (j + 1) (Nat.zero_le _) hlt).2
        linarith
    rw [interpolateIMUStateFor, hr]
    rw [if_neg]
    · have harg : -((scanTime + relTime) - stampAt hist (j + 1)) =
          stampAt hist (j + 1) - (scanTime + relTime) := by ring
      rw [harg]
      norm_num
    · rintro (hc | hc)
      · exact absurd hc (by omega)
      · linarith
  · -- clamp below the first sample
    intro hT
    have hr : imuScanForward hist (scanTime + relTime) hist.length 0 = 0 := by
      by_contra hne2
      have hlt : 0 < imuScanForward hist (scanTime + relTime) hist.length 0 := by
        omega
      have := (hD 0 (Nat.le_refl 0) hlt).2
      linarith
    rw [interpolateIMUStateFor, hr]
    rw [if_pos (Or.inl rfl)]
  · -- clamp above the last sample
    intro hT
    have hr : imuScanForward hist (scanTime + relTime) hist.length 0 =
        hist.length - 1 := by
      rcases Nat.lt_or_ge (imuScanForward hist (scanTime + relTime) hist.length 0)
        (hist.length - 1) with hlt | hge
      · exfalso
        have hstop := not_and.mp hC hlt
        have hle : stampAt hist (imuScanForward hist (scanTime + relTime)
            hist.length 0) < stampAt hist (hist.length - 1) :=
          stampAt_strict_mono hist hs _ _ hlt (by omega)
        have : 0 < (scanTime + relTime) -
            stampAt hist (imuScanForward hist (scanTime + relTime) hist.length 0) := by
          linarith
        exact hstop this
      · omega
    rw [interpolateIMUStateFor, hr]
    by_cases hlen1 : hist.length - 1 = 0
    · rw [hlen1]
      rw [if_pos (Or.inl rfl)]
    · rcases lt_or_eq_of_le hT with hTlt | hTeq
      · rw [if_pos (Or.inr (by linarith))]
      · rw [if_neg]
        · rw [show (scanTime + relTime) - stampAt hist (hist.length - 1) = 0 by
            rw [← hTeq]; ring]
          norm_num [IMUState.interpolate_zero]
        · rintro (hc | hc)
          · exact hlen1 hc
          · rw [← hTeq] at hc
            simp at hc


/-- A concrete first sample for the C6 witness. -/
def imuSampleA : IMUState :=
  { stamp := 0, roll := Angle.zero, pitch := Angle.zero, yaw := Angle.zero,
    acceleration := Vector3.zero, velocity := Vector3.zero,
    position := Vector3.zero }

/-- A concrete second sample for the C6 witness. -/
def imuSampleB : IMUState :=
  { stamp := 1, roll := Angle.zero, pitch := Angle.zero, yaw := Angle.zero,
    acceleration := Vector3.zero, velocity := ⟨0, 0, 1⟩,
    position := ⟨0, 0, 1/2⟩ }

/-- C6, witness: on the two-sample history with stamps 0 and 1, requesting
exactly time 1 returns the second stored sample unchanged. -/
theorem C6_interpolation_witness :
    (interpolateIMUStateFor [imuSampleA, imuSampleB] 1 0 0).2 =
      stateAt [imuSampleA, imuSampleB] 1 :=
  (C6_interpolation [imuSampleA, imuSampleB] 1 0 (by norm_num)
      (by
        intro i hi
        have hieq : i = 0 := by
          simp at hi
          omega
        subst hieq
        norm_num [stampAt, imuSampleA, imuSampleB])).1 1 (by norm_num)
    (by norm_num [stampAt, imuSampleB])


/-! ## C7: the packed scalar payload `ring + relTime` -/

/-- The start/end orientation normalization of `MultiScanRegistration::process`
(part_001 lines 163-170): `startOri = -atan2(y0, x0)` and `endOriRaw =
-atan2(yN, xN) + 2 pi`; `endOri` is then shifted by `2 pi` so that the sweep
span `endOri - startOri` lands in `[pi, 3 pi]`.  The irrational `M_PI` is the
parameter `pi` of the embedding. -/
def normalizeEndOri (pi startOri endOriRaw : ℚ) : ℚ :=
  if endOriRaw - startOri > 3 * pi then endOriRaw - 2 * pi
  else if endOriRaw - startOri < pi then endOriRaw + 2 * pi
  else endOriRaw

/-- The azimuth unwrapping of `MultiScanRegistration::process` (part_001
lines 202-221) for one point: `oriRaw = -atan2(x, z)` is the raw horizontal
angle; before the half-sweep flag is set the angle is shifted into a window
around `startOri` (and the flag is raised once `ori - startOri > pi`);
afterwards `2 pi` is added and the result is shifted into a window around
`endOri`.  Returns the unwrapped angle and the updated flag. -/
def unwrapOri (pi startOri endOri : ℚ) (halfPassed : Bool) (oriRaw : ℚ) :
    ℚ × Bool :=
  if halfPassed = false then
    if oriRaw < startOri - pi / 2 then
      (oriRaw + 2 * pi, decide (oriRaw + 2 * pi - startOri > pi))
    else if oriRaw > startOri + pi * 3 / 2 then
      (oriRaw - 2 * pi, decide (oriRaw - 2 * pi - startOri > pi))
    else
      (oriRaw, decide (oriRaw - startOri > pi))
  else
    if oriRaw + 2 * pi < endOri - pi * 3 / 2 then
      (oriRaw + 4 * pi, true)
    else if oriRaw + 2 * pi > endOri + pi / 2 then
      (oriRaw, true)
    else
      (oriRaw + 2 * pi, true)

/-- The relative scan time of part_001 line 224:
`scanPeriod * (ori - startOri) / (endOri - startOri)`. -/
def relTimeOf (scanPeriod startOri endOri ori : ℚ) : ℚ :=
  scanPeriod * (ori - startOri) / (endOri - startOri)

/-- The packed payload of part_001 line 225: `intensity = scanID + relTime`. -/
def pointIntensity (scanID : ℕ) (relTime : ℚ) : ℚ := (scanID : ℚ) + relTime

/-- The normalization of lines 163-170 always produces a sweep span in
`[pi, 3 pi]`, given the atan2 ranges of the raw angles. -/
theorem normalizeEndOri_span (pi startOri endOriRaw : ℚ) (hpi : 0 < pi)
    (hstart : -pi ≤ startOri ∧ startOri ≤ pi)
    (hend : pi < endOriRaw ∧ endOriRaw ≤ 3 * pi) :
    pi ≤ normalizeEndOri pi startOri endOriRaw - startOri ∧
      normalizeEndOri pi startOri endOriRaw - startOri ≤ 3 * pi := by
  rw [normalizeEndOri]
  split_ifs with h1 h2
  · constructor <;> linarith
  · constructor <;> linarith
  · constructor <;> linarith

/-- C7, amended: for every kept point, the stored payload is exactly
`scanID + relTime` (first conjunct, part_001 line 225), but `relTime` is NOT
confined to `[0, 1)`: what holds is the bound
`-scanPeriod/2 ≤ relTime ≤ 2 * scanPeriod` (second and third conjuncts),
derived from the unwrapping windows and the sweep span `endOri - startOri ∈
[pi, 3 pi]`; in particular `relTime` can be negative for a point whose
azimuth lies slightly behind the start orientation. -/
theorem C7_payload (pi scanPeriod startOri endOri oriRaw : ℚ)
    (halfPassed : Bool) (scanID : ℕ)
    (hpi : 0 < pi)
    (hraw : -pi ≤ oriRaw ∧ oriRaw ≤ pi)
    (hstart : -pi ≤ startOri ∧ startOri ≤ pi)
    (hspan : pi ≤ endOri - startOri ∧ endOri - startOri ≤ 3 * pi)
    (hsp : 0 < scanPeriod) :
    pointIntensity scanID (relTimeOf scanPeriod startOri endOri
        (unwrapOri pi startOri endOri halfPassed oriRaw).1) =
      (scanID : ℚ) + relTimeOf scanPeriod startOri endOri
        (unwrapOri pi startOri endOri halfPassed oriRaw).1 ∧
    -(scanPeriod / 2) ≤ relTimeOf scanPeriod startOri endOri
        (unwrapOri pi startOri endOri halfPassed oriRaw).1 ∧
    relTimeOf scanPeriod startOri endOri
        (unwrapOri pi startOri endOri halfPassed oriRaw).1 ≤ 2 * scanPeriod := by
  have hd : 0 < endOri - startOri := by linarith
  have hnum : -((endOri - startOri) / 2) ≤
      (unwrapOri pi startOri endOri halfPassed oriRaw).1 - startOri ∧
      (unwrapOri pi startOri endOri halfPassed oriRaw).1 - startOri ≤
        2 * (endOri - startOri) := by
    rw [unwrapOri]
    rcases halfPassed with _ | _
    · rw [if_pos rfl]
      split_ifs with h1 h2
      · constructor <;> simp <;> linarith
      · constructor <;> simp <;> linarith
      · constructor <;> simp <;> linarith
    · rw [if_neg (by simp)]
      split_ifs with h1 h2
      · constructor <;> simp <;> linarith
      · constructor <;> simp <;> linarith
      · constructor <;> simp <;> linarith
  refine ⟨rfl, ?_, ?_⟩
  · rw [relTimeOf, le_div_iff₀ hd]
    nlinarith [hnum.1]
  · rw [relTimeOf, div_le_iff₀ hd]
    nlinarith [hnum.2]

/-- C7, counterexample: with the sweep geometry `startOri = 0`,
`endOri = 2 pi` (span `2 pi`, inside the normalized range), half-sweep flag
not yet set, and a kept point at raw azimuth `-1/2` (no unwrap shift
applies), the relative time is strictly negative, so the payload fractional
part violates the claimed invariant `0 ≤ relTime < 1`; the value of `pi` is
taken as 355/113 and every comparison holds with a wide margin, so the
control flow agrees with the floating point source. -/
theorem C7_counterexample :
    relTimeOf (1/10) 0 (2 * (355/113))
        (unwrapOri (355/113) 0 (2 * (355/113)) false (-1/2)).1 < 0 ∧
    pointIntensity 3 (relTimeOf (1/10) 0 (2 * (355/113))
        (unwrapOri (355/113) 0 (2 * (355/113)) false (-1/2)).1) < 3 := by
  have h : (unwrapOri (355/113) 0 (2 * (355/113)) false (-1/2)).1 = -1/2 := by
    norm_num [unwrapOri]
  rw [h]
  constructor
  · norm_num [relTimeOf]
  · norm_num [relTimeOf, pointIntensity]

/-- C7, witness: the amended theorem at the counterexample geometry - the
payload equation and the bounds hold there. -/
theorem C7_payload_witness :
    -((1:ℚ)/10 / 2) ≤ relTimeOf (1/10) 0 (2 * (355/113))
        (unwrapOri (355/113) 0 (2 * (355/113)) false (-1/2)).1 ∧
    relTimeOf (1/10) 0 (2 * (355/113))
        (unwrapOri (355/113) 0 (2 * (355/113)) false (-1/2)).1 ≤ 2 * (1/10) :=
  ⟨(C7_payload (355/113) (1/10) 0 (2 * (355/113)) (-1/2) false 3 (by norm_num)
      (by norm_num) (by norm_num) (by norm_num) (by norm_num)).2.1,
   (C7_payload (355/113) (1/10) 0 (2 * (355/113)) (-1/2) false 3 (by norm_num)
      (by norm_num) (by norm_num) (by norm_num) (by norm_num)).2.2⟩


/-! ## C5: Transform Maintenance fusion (modelled from the spec) -/

/-- Modelled from the spec: a 6-DOF pose as a rotation matrix plus a
translation vector.  The bodies of `TransformMaintenance::processOdometryTransform`
and `transformAssociateToMap` are not under `src/` (only TransformMaintenance.h
is), so the fusion update is modelled from spec section 4.5. -/
structure Pose where
  R : Matrix (Fin 3) (Fin 3) ℚ
  t : Fin 3 → ℚ

/-- Composition of rigid transforms: apply `b` first, then `a`
(`(a.comp b) p = a.R (b.R p + b.t) + a.t`). -/
def Pose.comp (a b : Pose) : Pose := ⟨a.R * b.R, a.R.mulVec b.t + a.t⟩

/-- The inverse of a pose with orthogonal rotation. -/
def Pose.inv (a : Pose) : Pose := ⟨a.R.transpose, -(a.R.transpose.mulVec a.t)⟩

/-- The Transform Maintenance snapshot state: `transformBefMapped` is the
odometry pose at the time of the last mapping correction and
`transformAftMapped` the corrected pose for that same instant
(TransformMaintenance.h lines 80-84). -/
structure TMState where
  transformBefMapped : Pose
  transformAftMapped : Pose

/-- Modelled from the spec: one odometry update of
`TransformMaintenance::processOdometryTransform` - the relative motion of the
current `transformSum` since the `transformBefMapped` snapshot, expressed in
the corrected frame, is composed onto `transformAftMapped` to produce the
fused output. -/
def processOdometryTransform (st : TMState) (transformSum : Pose) : Pose :=
  st.transformAftMapped.comp (st.transformBefMapped.inv.comp transformSum)

/-- A run of odometry updates with no intervening mapping correction: the
snapshot pair stays fixed, each update recomputes the fused output from the
current `transformSum` alone, and the function returns the output after the
last update. -/
def runOdometryUpdates (st : TMState) (out0 : Pose) (sums : List Pose) : Pose :=
  sums.foldl (fun _ s => processOdometryTransform st s) out0

theorem Pose.inv_comp_comp (b d : Pose) (horth : b.R.transpose * b.R = 1) :
    b.inv.comp (b.comp d) = d := by
  cases d with
  | mk Rd td =>
    rw [Pose.inv, Pose.comp, Pose.comp]
    congr 1
    · rw [← Matrix.mul_assoc, horth, Matrix.one_mul]
    · rw [Matrix.mulVec_add, Matrix.mulVec_mulVec, horth, Matrix.one_mulVec]
      funext i
      simp

/-- C5: after a mapping-correction snapshot `(transformBefMapped,
transformAftMapped)` with an orthogonal snapshot rotation, if `transformSum`
has advanced by `delta` since the snapshot (i.e. the current odometry pose is
`transformBefMapped.comp delta`), the fused output of the odometry handler
equals `transformAftMapped.comp delta`, regardless of how many odometry
updates `prev` occurred since the last mapping correction and of the previous
output `out0`. -/
theorem C5_fusion (st : TMState) (delta : Pose) (prev : List Pose) (out0 : Pose)
    (horth : st.transformBefMapped.R.transpose * st.transformBefMapped.R = 1) :
    runOdometryUpdates st out0 (prev ++ [st.transformBefMapped.comp delta]) =
      st.transformAftMapped.comp delta := by
  rw [runOdometryUpdates, List.foldl_append, List.foldl_cons, List.foldl_nil]
  rw [processOdometryTransform, Pose.inv_comp_comp st.transformBefMapped delta horth]

/-- The identity pose, for the C5 witness. -/
def poseId : Pose := ⟨1, fun _ => 0⟩

/-- A concrete translation delta, for the C5 witness. -/
def poseD : Pose := ⟨1, fun _ => 1⟩

/-- C5, witness: with the identity snapshot pair and a pure-translation
advance `poseD` of `transformSum`, the fused output after two odometry
updates equals the corrected pose composed with the advance. -/
theorem C5_fusion_witness :
    runOdometryUpdates ⟨poseId, poseId⟩ poseId
        ([poseId] ++ [poseId.comp poseD]) = poseId.comp poseD :=
  C5_fusion ⟨poseId, poseId⟩ poseD [poseId] poseId
    (by rw [poseId]; simp)


end Loam
